import Mathlib

/-!
# Event correlation and latency measurement of the OKX connector example

A shallow embedding of `MyEventHandler` from `src/main.cpp`: the handler state,
`processEvent`, `placeTestOrder`, and the properties of the order placement
policy, the correlation registry and the latency computer.

Modelling conventions.

* Time points (`high_resolution_clock`, `system_clock`, the `TimePoint` of the
  session library) are integers: nanoseconds since the Unix epoch.
  `duration_cast` truncates towards zero, which is `Int.tdiv`.
* The handler reads the clock while it runs.  Each reading is an input of the
  model: `Event.now` is the reading at the top of `processEvent`, and a
  `Message` carries the readings taken while that message is handled.
* `std::atomic<int>` counters are integers wrapped to 32 bits on increment.
* A latency sample is the `count()` of a microsecond duration, an integer,
  stored in a `std::vector<double>`; the model keeps the integer.
* `std::stod` is a parameter `stod : String → Option Float`; `none` stands for
  a thrown exception.
* Console output is not modelled.
* The arithmetic on `double` in `getAverageLatency` and in the percentile
  indexes `size() * 0.95` is binary64 arithmetic, modelled exactly: every
  operation returns the exact result rounded to 53 significant bits, nearest
  and ties to even (`roundToDouble`, `doubleAdd`, `doubleDiv`).  The exponent
  range is not modelled; no value of the report comes near its ends.  A stored
  sample is converted to `double` where it is read.
* The response rate is a quotient of two small integers that is only printed;
  the model keeps the exact quotient in `ℚ`.
-/

namespace ccapi

/-! ## Data model -/

/-- Kinds of event, `Event::Type`; the handler distinguishes three of them. -/
inductive EventType where
  | SUBSCRIPTION_STATUS
  | SUBSCRIPTION_DATA
  | RESPONSE
  | OTHER
  deriving DecidableEq, Repr

/-- Kinds of message, `Message::Type`; the values the handler tests for. -/
inductive MessageType where
  | MARKET_DATA_EVENTS_MARKET_DEPTH
  | EXECUTION_MANAGEMENT_EVENTS_ORDER_UPDATE
  | SUBSCRIPTION_FAILURE_DUE_TO_CONNECTION_FAILURE
  | CREATE_ORDER
  | RESPONSE_ERROR
  | OTHER
  deriving DecidableEq, Repr

/-- An element is its name-value map (`Element::getNameValueMap`). -/
abbrev Element := List (String × String)

/-- The lookup `elementNameValueMap.find(name)`; `none` is `end()`. -/
def Element.find (el : Element) (name : String) : Option String :=
  el.lookup name

/-- The accessor `Element::getValue(name)` of the session library: the value
stored under `name`, and the empty string when the name is absent. -/
def Element.getValue (el : Element) (name : String) : String :=
  match el.find name with
  | some v => v
  | none => ""

/-- A message, with the clock readings taken while the handler works on it. -/
structure Message where
  /-- The result of `getType()`. -/
  type : MessageType
  /-- The result of `getTime()`: the timestamp reported by the exchange. -/
  time : Int
  /-- The result of `getTimeReceived()`: local receipt by the session library. -/
  timeReceived : Int
  /-- The result of `getCorrelationIdList()`. -/
  correlationIdList : List String
  /-- The result of `getElementList()`. -/
  elementList : List Element
  /-- The clock reading bound to `localReceiveTime` (order update) or
  `responseTime` (order channel) when this message is handled. -/
  clock : Int
  /-- The clock reading bound to `now` inside `placeTestOrder`, should this
  message trigger a placement. -/
  placeClock : Int
  /-- The clock reading bound to `sendTime` inside `placeTestOrder`. -/
  sendClock : Int

/-- An event, with the clock reading `now` taken on entry to `processEvent`. -/
structure Event where
  /-- The result of `getType()`. -/
  type : EventType
  /-- The result of `getMessageList()`. -/
  messageList : List Message
  /-- The arrival time: the clock reading on entry to `processEvent`. -/
  now : Int

/-- The order request built by `placeTestOrder` and handed to
`sessionPtr->sendRequest`.  Price and quantity are kept as doubles; their
formatting into parameter strings is not modelled. -/
structure Request where
  correlationId : String
  side : String
  limitPrice : Float
  quantity : Float
  clientOrderId : String

/-- The map `orderTimestamps`, from client order id to send time.  Keys are
kept unique by `Registry.assign`. -/
abbrev Registry := List (String × Int)

/-- The lookup `orderTimestamps.find(id)`; `none` is `end()`. -/
def Registry.find (r : Registry) (id : String) : Option Int :=
  r.lookup id

/-- The removal `orderTimestamps.erase(it)` of the entry stored under `id`. -/
def Registry.erase (r : Registry) (id : String) : Registry :=
  r.filter (fun p => p.1 != id)

/-- The assignment `orderTimestamps[id] = t`: inserts, or overwrites the entry
already stored under `id`. -/
def Registry.assign (r : Registry) (id : String) (t : Int) : Registry :=
  (id, t) :: r.erase id

/-- The members of `MyEventHandler`, together with the requests it has handed
to the session. -/
structure MyEventHandler where
  orderCount : Int
  messageCount : Int
  lastOrderTime : Int
  orderTimestamps : Registry
  latencies : List Int
  marketDataOnly : Bool
  /-- Requests passed to `sessionPtr->sendRequest`, oldest first. -/
  sent : List Request

/-- The constructor `MyEventHandler(marketDataOnly)`, run when the clock reads
`t0`. -/
def MyEventHandler.fresh (marketDataOnly : Bool) (t0 : Int) : MyEventHandler :=
  { orderCount := 0
    messageCount := 0
    lastOrderTime := t0
    orderTimestamps := []
    latencies := []
    marketDataOnly := marketDataOnly
    sent := [] }

/-! ## Arithmetic helpers -/

/-- Two's complement wrap of an `int` after an atomic increment. -/
def wrapInt32 (x : Int) : Int :=
  (x + 2147483648) % 4294967296 - 2147483648

/-- The cast `duration_cast<microseconds>(d).count()` of a nanosecond duration. -/
def toMicroseconds (d : Int) : Int :=
  Int.tdiv d 1000

/-- The cast `duration_cast<milliseconds>(d).count()` of a nanosecond duration. -/
def toMilliseconds (d : Int) : Int :=
  Int.tdiv d 1000000

/-- The cast `duration_cast<seconds>(d).count()` of a nanosecond duration. -/
def toSeconds (d : Int) : Int :=
  Int.tdiv d 1000000000

/-- The test `s.find(pat) != std::string::npos`. -/
def containsSubstring (s pat : String) : Bool :=
  s.toList.tails.any (fun t => pat.toList.isPrefixOf t)

/-- The check `hasValidServerTime` of the response path: more than 1000000000
whole seconds between the epoch and the exchange timestamp. -/
def hasValidServerTime (serverProcessTime : Int) : Bool :=
  decide (toSeconds (serverProcessTime - 0) > 1000000000)

/-! ## placeTestOrder -/

/-- The client order id generated by `placeTestOrder` when the clock reads
`now`: `"ord"` followed by the millisecond timestamp modulo 100000000. -/
def generateClientOrderId (now : Int) : String :=
  "ord" ++ toString (Int.tmod (toMilliseconds now) 100000000)

/-- The method `placeTestOrder(sessionPtr, bestBid)`; `placeClock` and
`sendClock` are its two clock readings. -/
def placeTestOrder (h : MyEventHandler) (bestBid : Float) (placeClock sendClock : Int) :
    MyEventHandler :=
  let orderCount := wrapInt32 (h.orderCount + 1)
  let clientOrderId := generateClientOrderId placeClock
  let correlationId := "test_order_" ++ toString orderCount
  let orderPrice := bestBid - 0.01
  let usdtAmount : Float := 1.0
  let quantity := usdtAmount / orderPrice
  let request : Request :=
    { correlationId := correlationId
      side := "BUY"
      limitPrice := orderPrice
      quantity := quantity
      clientOrderId := clientOrderId }
  { h with
    orderCount := orderCount
    orderTimestamps := h.orderTimestamps.assign clientOrderId sendClock
    sent := h.sent ++ [request] }

/-! ## processEvent -/

/-- The loop over the messages of a `SUBSCRIPTION_STATUS` event: the first
failure message sets the mode flag and returns. -/
def processStatusMessages (h : MyEventHandler) : List Message → MyEventHandler
  | [] => h
  | m :: ms =>
    if m.type = MessageType.SUBSCRIPTION_FAILURE_DUE_TO_CONNECTION_FAILURE then
      { h with marketDataOnly := true }
    else
      processStatusMessages h ms

/-- The body of the element loop of an order update message. -/
def processOrderUpdateElement (m : Message) (h : MyEventHandler) (el : Element) :
    MyEventHandler :=
  let localReceiveTime := m.clock
  let serverProcessTime := m.time
  let clientOrderId := el.getValue "CLIENT_ORDER_ID"
  match h.orderTimestamps.find clientOrderId with
  | some sentAt =>
    let _totalLatency := toMicroseconds (localReceiveTime - sentAt)
    let serverLatency := toMicroseconds (serverProcessTime - sentAt)
    let _networkDelay := toMicroseconds (localReceiveTime - serverProcessTime)
    { h with
      latencies := h.latencies ++ [serverLatency]
      orderTimestamps := h.orderTimestamps.erase clientOrderId }
  | none => h

/-- The field lookup of the order channel path: `CLIENT_ORDER_ID`, then
`clOrdId`, then `clientOrderId`. -/
def orderChannelClientOrderId (el : Element) : Option String :=
  match el.find "CLIENT_ORDER_ID" with
  | some v => some v
  | none =>
    match el.find "clOrdId" with
    | some v => some v
    | none => el.find "clientOrderId"

/-- The body of the element loop of an order channel message. -/
def processOrderChannelElement (m : Message) (h : MyEventHandler) (el : Element) :
    MyEventHandler :=
  let responseTime := m.clock
  match orderChannelClientOrderId el with
  | some clientOrderId =>
    match h.orderTimestamps.find clientOrderId with
    | some sentAt =>
      let latency := toMicroseconds (responseTime - sentAt)
      { h with
        latencies := h.latencies ++ [latency]
        orderTimestamps := h.orderTimestamps.erase clientOrderId }
    | none => h
  | none => h

/-- The locals `bestBid`, `bestAsk`, `hasBid`, `hasAsk` of the market data
branch. -/
structure Quote where
  bestBid : Float
  bestAsk : Float
  hasBid : Bool
  hasAsk : Bool

/-- The initial values `0.0, 0.0, false, false`. -/
def Quote.init : Quote :=
  { bestBid := 0.0, bestAsk := 0.0, hasBid := false, hasAsk := false }

/-- The body of the element loop that extracts bid and ask: a field that is
present and parses is stored, a field that fails to parse is skipped. -/
def extractQuoteElement (stod : String → Option Float) (q : Quote) (el : Element) : Quote :=
  let q1 :=
    match el.find "BID_PRICE" with
    | some s =>
      match stod s with
      | some v => { q with bestBid := v, hasBid := true }
      | none => q
    | none => q
  match el.find "ASK_PRICE" with
  | some s =>
    match stod s with
    | some v => { q1 with bestAsk := v, hasAsk := true }
    | none => q1
  | none => q1

/-- The element loop of the market data branch. -/
def extractQuote (stod : String → Option Float) (els : List Element) : Quote :=
  els.foldl (extractQuoteElement stod) Quote.init

/-- The market data branch of the message loop; `now` is the arrival time of
the event. -/
def processMarketDataMessage (stod : String → Option Float) (now : Int)
    (h : MyEventHandler) (m : Message) : MyEventHandler :=
  let h1 := { h with messageCount := wrapInt32 (h.messageCount + 1) }
  let q := extractQuote stod m.elementList
  if q.hasBid && q.hasAsk then
    if !h1.marketDataOnly then
      let timeSinceLastOrder := toSeconds (now - h1.lastOrderTime)
      if (h1.orderCount = 0 ∨ timeSinceLastOrder ≥ 10) ∧ h1.orderCount < 3 then
        { placeTestOrder h1 q.bestBid m.placeClock m.sendClock with lastOrderTime := now }
      else h1
    else h1
  else h1

/-- The test that selects the order channel branch: a first correlation id
that contains `gZvs2qhN`. -/
def isOrderChannel (m : Message) : Bool :=
  match m.correlationIdList with
  | [] => false
  | c :: _ => containsSubstring c "gZvs2qhN"

/-- The body of the message loop of a `SUBSCRIPTION_DATA` event. -/
def processDataMessage (stod : String → Option Float) (now : Int)
    (h : MyEventHandler) (m : Message) : MyEventHandler :=
  if m.type = MessageType.EXECUTION_MANAGEMENT_EVENTS_ORDER_UPDATE then
    m.elementList.foldl (processOrderUpdateElement m) h
  else if isOrderChannel m then
    m.elementList.foldl (processOrderChannelElement m) h
  else
    processMarketDataMessage stod now h m

/-- The body of the element loop of a `RESPONSE` message. -/
def processResponseElement (m : Message) (h : MyEventHandler) (el : Element) :
    MyEventHandler :=
  match el.find "CLIENT_ORDER_ID" with
  | some clientOrderId =>
    match h.orderTimestamps.find clientOrderId with
    | some sentAt =>
      let ccapiReceiveTime := m.timeReceived
      let serverProcessTime := m.time
      let ccapiLatency := toMicroseconds (ccapiReceiveTime - sentAt)
      if hasValidServerTime serverProcessTime then
        let serverLatency := toMicroseconds (serverProcessTime - sentAt)
        { h with
          latencies := h.latencies ++ [serverLatency]
          orderTimestamps := h.orderTimestamps.erase clientOrderId }
      else
        { h with
          latencies := h.latencies ++ [ccapiLatency]
          orderTimestamps := h.orderTimestamps.erase clientOrderId }
    | none => h
  | none => h

/-- The body of the message loop of a `RESPONSE` event. -/
def processResponseMessage (h : MyEventHandler) (m : Message) : MyEventHandler :=
  m.elementList.foldl (processResponseElement m) h

/-- The method `processEvent(event, sessionPtr)`. -/
def processEvent (stod : String → Option Float) (h : MyEventHandler) (e : Event) :
    MyEventHandler :=
  match e.type with
  | EventType.SUBSCRIPTION_STATUS => processStatusMessages h e.messageList
  | EventType.SUBSCRIPTION_DATA => e.messageList.foldl (processDataMessage stod e.now) h
  | EventType.RESPONSE => e.messageList.foldl processResponseMessage h
  | EventType.OTHER => h

/-- The handler after a sequence of events, delivered in order. -/
def run (stod : String → Option Float) (h : MyEventHandler) (es : List Event) :
    MyEventHandler :=
  es.foldl (processEvent stod) h

/-! ## The final report -/

/-- The method `getLatencies()`. -/
def MyEventHandler.getLatencies (h : MyEventHandler) : List Int :=
  h.latencies

/-- The method `getLatencyCount()`. -/
def MyEventHandler.getLatencyCount (h : MyEventHandler) : Nat :=
  h.latencies.length

/-- The method `isMarketDataOnly()`. -/
def MyEventHandler.isMarketDataOnly (h : MyEventHandler) : Bool :=
  h.marketDataOnly

/-- The number of low bits that are dropped when the natural number `x` is
rounded to the 53 significant bits of a binary64: the number of halvings that
bring `x` below `2 ^ 53`.  The first argument bounds the recursion. -/
def droppedBits : Nat → Nat → Nat
  | 0, _ => 0
  | fuel + 1, x => if x < 2 ^ 53 then 0 else droppedBits fuel (x / 2) + 1

/-- The binary64 nearest to the natural number `x`, ties to even: the
conversion of a `size_t` to `double`, and the rounding of an exact product
whose unit is a power of two. -/
def roundToDouble (x : Nat) : Nat :=
  let s := droppedBits x x
  let q := x / 2 ^ s
  let r := x % 2 ^ s
  if 2 ^ s < 2 * r ∨ (2 * r = 2 ^ s ∧ q % 2 = 1) then (q + 1) * 2 ^ s else q * 2 ^ s

/-- A finite binary64 value, `significand * 2 ^ exponent`. -/
structure Binary64 where
  significand : Int
  exponent : Int
  deriving DecidableEq

/-- The conversion of an integer to `double`, nearest and ties to even: what
`push_back` does to the `count()` of a duration. -/
def intToDouble (x : Int) : Int :=
  if x < 0 then -((roundToDouble x.natAbs : Nat) : Int) else ((roundToDouble x.natAbs : Nat) : Int)

/-- The binary64 sum of two doubles whose values are integers: the exact sum,
rounded. -/
def doubleAdd (a b : Int) : Int :=
  intToDouble (a + b)

/-- The quotient `a / b` rounded to the nearest natural number, ties to even. -/
def roundQuotient (a b : Nat) : Nat :=
  let q := a / b
  let r := a % b
  if b < 2 * r ∨ (2 * r = b ∧ q % 2 = 1) then q + 1 else q

/-- The number of doublings that bring `a / b` up to `2 ^ 52`.  The first
argument bounds the recursion. -/
def raisedBits : Nat → Nat → Nat → Nat
  | 0, _, _ => 0
  | fuel + 1, a, b => if 2 ^ 52 * b ≤ a then 0 else raisedBits fuel (2 * a) b + 1

/-- The binary64 quotient of two positive doubles whose values are the natural
numbers `a` and `b`: the exact quotient rounded to 53 significant bits, nearest
and ties to even. -/
def doubleDivNat (a b : Nat) : Binary64 :=
  if a = 0 then { significand := 0, exponent := 0 }
  else
    let down := droppedBits (a / b) (a / b)
    if 0 < down then
      { significand := (roundQuotient a (b * 2 ^ down) : Nat), exponent := (down : Int) }
    else
      let up := raisedBits (53 + b) a b
      { significand := (roundQuotient (a * 2 ^ up) b : Nat), exponent := -(up : Int) }

/-- The binary64 quotient `a / b` of two doubles whose values are the integer
`a` and the natural number `b`; `none` stands for a result that is not finite,
the outcome of a division by zero. -/
def doubleDiv (a : Int) (b : Nat) : Option Binary64 :=
  if b = 0 then none
  else if a < 0 then
    some { significand := -(doubleDivNat a.natAbs b).significand
           exponent := (doubleDivNat a.natAbs b).exponent }
  else some (doubleDivNat a.natAbs b)

/-- The method `getAverageLatency()`: `0.0` for no samples, returned before any
division; otherwise `std::accumulate` adds the samples up in binary64, starting
from `0.0`, and the sum is divided in binary64 by `size()` converted to
`double`. -/
def MyEventHandler.getAverageLatency (h : MyEventHandler) : Option Binary64 :=
  if h.latencies.isEmpty then some { significand := 0, exponent := 0 }
  else
    let sum := h.latencies.foldl (fun s x => doubleAdd s (intToDouble x)) 0
    doubleDiv sum (roundToDouble h.latencies.length)

/-- The significand, in units of `2 ^ (-53)`, of the binary64 literal nearest
to the fraction `num / den`, for a fraction between one half and one. -/
def doubleSignificand (num den : Nat) : Nat :=
  (2 * num * 2 ^ 53 + den) / (2 * den)

/-- The index `size_t idx = size * c` of the report: `size` is converted to
`double`, multiplied by the constant whose significand is `c` (the product is
rounded to binary64), and the result is truncated to `size_t`. -/
def percentileIndex (size c : Nat) : Nat :=
  roundToDouble (roundToDouble size * c) / 2 ^ 53

/-- The three percentiles printed by the report; `none` stands for a read past
the end of the sorted vector. -/
structure Percentiles where
  p50 : Option Int
  p95 : Option Int
  p99 : Option Int
  deriving DecidableEq

/-- The percentile block of the report: the samples are sorted, and the three
percentiles are read when there are at least two samples. -/
def reportPercentiles (latencies : List Int) : Option Percentiles :=
  let sortedLatencies := latencies.insertionSort (fun a b => a ≤ b)
  if sortedLatencies.length ≥ 2 then
    let p50_idx := percentileIndex sortedLatencies.length (doubleSignificand 50 100)
    let p95_idx := percentileIndex sortedLatencies.length (doubleSignificand 95 100)
    let p99_idx := percentileIndex sortedLatencies.length (doubleSignificand 99 100)
    some
      { p50 := sortedLatencies[p50_idx]?
        p95 := sortedLatencies[p95_idx]?
        p99 := sortedLatencies[p99_idx]? }
  else none

/-- The smallest element found by `std::minmax_element` in `x :: xs`. -/
def minElement (x : Int) (xs : List Int) : Int :=
  xs.foldl (fun m y => if y < m then y else m) x

/-- The largest element found by `std::minmax_element` in `x :: xs`. -/
def maxElement (x : Int) (xs : List Int) : Int :=
  xs.foldl (fun m y => if y < m then m else y) x

/-- The latency statistics printed by the final report. -/
structure LatencyStatistics where
  averageLatency : Option Binary64
  minimum : Int
  maximum : Int
  percentiles : Option Percentiles

/-- The branch `if (responseCount > 0)` of the report; `none` stands for the
line that says that no order response was received. -/
def latencyStatistics (averageLatency : Option Binary64) : List Int → Option LatencyStatistics
  | [] => none
  | x :: xs =>
    some
      { averageLatency := averageLatency
        minimum := minElement x xs
        maximum := maxElement x xs
        percentiles := reportPercentiles (x :: xs) }

/-- The latency part of the final report of `main`; `none` when the handler is
in market-data-only mode, or has no sample. -/
def finalLatencyReport (h : MyEventHandler) : Option LatencyStatistics :=
  if h.isMarketDataOnly then none
  else latencyStatistics h.getAverageLatency h.getLatencies

/-! ## Observations used by the statements -/

/-- A message that takes the market data branch of the message loop: neither
an order update nor an order channel message. -/
def isMarketDataMessage (m : Message) : Bool :=
  decide (m.type ≠ MessageType.EXECUTION_MANAGEMENT_EVENTS_ORDER_UPDATE) && !isOrderChannel m

/-- One more request has been handed to the session in `h2` than in `h1`. -/
def placedOrder (h1 h2 : MyEventHandler) : Prop :=
  h2.sent.length = h1.sent.length + 1

instance (h1 h2 : MyEventHandler) : Decidable (placedOrder h1 h2) :=
  inferInstanceAs (Decidable (h2.sent.length = h1.sent.length + 1))

/-- The arrival times of the placements made while the messages `ms` of one
`SUBSCRIPTION_DATA` event that arrived at `now` are handled, in order. -/
def placementsInMessages (stod : String → Option Float) (now : Int) :
    MyEventHandler → List Message → List Int
  | _, [] => []
  | h, m :: ms =>
    (if placedOrder h (processDataMessage stod now h m) then [now] else []) ++
      placementsInMessages stod now (processDataMessage stod now h m) ms

/-- The arrival times of the placements made while the event `e` is handled. -/
def placementsInEvent (stod : String → Option Float) (h : MyEventHandler) (e : Event) :
    List Int :=
  if e.type = EventType.SUBSCRIPTION_DATA then
    placementsInMessages stod e.now h e.messageList
  else []

/-- The arrival times of the events that triggered a placement during a run,
one entry per placement, in order. -/
def placementTimes (stod : String → Option Float) : MyEventHandler → List Event → List Int
  | _, [] => []
  | h, e :: es => placementsInEvent stod h e ++ placementTimes stod (processEvent stod h e) es

/-- The interval of 10 seconds, in nanoseconds. -/
def orderInterval : Int := 10000000000

/-- A market data event with valid bid and ask: a `SUBSCRIPTION_DATA` event
each of whose messages takes the market data branch and yields a parseable bid
and a parseable ask. -/
def isValidQuoteEvent (stod : String → Option Float) (e : Event) : Bool :=
  decide (e.type = EventType.SUBSCRIPTION_DATA) &&
  e.messageList.all (fun m =>
    isMarketDataMessage m && (extractQuote stod m.elementList).hasBid &&
      (extractQuote stod m.elementList).hasAsk)

/-- The three places where `processEvent` matches a confirmation against the
registry. -/
inductive ConfirmationPath where
  | orderUpdate
  | orderChannel
  | response
  deriving DecidableEq, Repr

/-- The element loop body of a confirmation path. -/
def confirmElement (p : ConfirmationPath) (m : Message) (h : MyEventHandler) (el : Element) :
    MyEventHandler :=
  match p with
  | ConfirmationPath.orderUpdate => processOrderUpdateElement m h el
  | ConfirmationPath.orderChannel => processOrderChannelElement m h el
  | ConfirmationPath.response => processResponseElement m h el

/-- The id that a confirmation path looks up in the registry for an element,
the value of its local `clientOrderId`; `none` when the path finds no id field
and skips the lookup. -/
def confirmationId (p : ConfirmationPath) (el : Element) : Option String :=
  match p with
  | ConfirmationPath.orderUpdate => some (el.getValue "CLIENT_ORDER_ID")
  | ConfirmationPath.orderChannel => orderChannelClientOrderId el
  | ConfirmationPath.response => el.find "CLIENT_ORDER_ID"

/-- The ids that `processEvent` looks up for the elements of a message of a
`SUBSCRIPTION_DATA` event. -/
def dataMessageIds (m : Message) : List String :=
  if m.type = MessageType.EXECUTION_MANAGEMENT_EVENTS_ORDER_UPDATE then
    m.elementList.filterMap (confirmationId ConfirmationPath.orderUpdate)
  else if isOrderChannel m then
    m.elementList.filterMap (confirmationId ConfirmationPath.orderChannel)
  else []

/-- The ids that `processEvent` looks up in the registry for an event. -/
def eventIds (e : Event) : List String :=
  match e.type with
  | EventType.SUBSCRIPTION_DATA => e.messageList.flatMap dataMessageIds
  | EventType.RESPONSE =>
    e.messageList.flatMap
      (fun m => m.elementList.filterMap (confirmationId ConfirmationPath.response))
  | _ => []

/-- A confirmation event: a `RESPONSE` event, or a `SUBSCRIPTION_DATA` event
whose messages are all order updates or order channel data. -/
def isConfirmationEvent (e : Event) : Bool :=
  match e.type with
  | EventType.RESPONSE => true
  | EventType.SUBSCRIPTION_DATA => e.messageList.all (fun m => !isMarketDataMessage m)
  | _ => false

/-- The timestamp a confirmation path measures its sample against: the exchange
timestamp on the order update path, the local clock on the order channel path,
and on the response path the exchange timestamp when it is valid and the
receipt time otherwise. -/
def measuredAgainst (p : ConfirmationPath) (m : Message) : Int :=
  match p with
  | ConfirmationPath.orderUpdate => m.time
  | ConfirmationPath.orderChannel => m.clock
  | ConfirmationPath.response => if hasValidServerTime m.time then m.time else m.timeReceived

/-- The number of messages of an event that take the market data branch. -/
def marketDataMessageCount (e : Event) : Nat :=
  match e.type with
  | EventType.SUBSCRIPTION_DATA => (e.messageList.filter isMarketDataMessage).length
  | _ => 0

/-- The response rate of the final report, in percent:
`finalOrderCount > 0 ? responseCount * 100.0 / finalOrderCount : 0`. -/
def responseRate (h : MyEventHandler) : Rat :=
  if h.orderCount > 0 then (h.latencies.length : Rat) * 100 / (h.orderCount : Rat) else 0

/-! ## Relations between states used by the proofs -/

/-- The control part of the state: everything but the registry and the
samples is the same in `h1` and `h2`. -/
def sameControl (h1 h2 : MyEventHandler) : Prop :=
  h2.orderCount = h1.orderCount ∧ h2.messageCount = h1.messageCount ∧
  h2.lastOrderTime = h1.lastOrderTime ∧ h2.marketDataOnly = h1.marketDataOnly ∧
  h2.sent = h1.sent

/-- The bounds kept on the order counter. -/
def orderCountBounded (h : MyEventHandler) : Prop :=
  0 ≤ h.orderCount ∧ h.orderCount ≤ 3

/-- The registry of `h2` holds nothing that the registry of `h1` does not
hold: each entry of `h2` is an entry of `h1`, and there are no more of them. -/
def registryWithin (h1 h2 : MyEventHandler) : Prop :=
  (∀ id t, h2.orderTimestamps.find id = some t → h1.orderTimestamps.find id = some t) ∧
  h2.orderTimestamps.length ≤ h1.orderTimestamps.length

/-- The facts that hold of every state `h2` reached from `h1` once the handler
is in market-data-only mode. -/
def downgraded (h1 h2 : MyEventHandler) : Prop :=
  h2.marketDataOnly = true ∧ h2.orderCount = h1.orderCount ∧ h2.sent = h1.sent ∧
  h2.lastOrderTime = h1.lastOrderTime ∧ registryWithin h1 h2

/-- The summary of a stretch of a run that starts in `h1`, ends in `h2` and
makes placements at the arrival times `ts`. -/
def Spaced (h1 : MyEventHandler) (ts : List Int) (h2 : MyEventHandler) : Prop :=
  List.Pairwise (fun a b => a + orderInterval ≤ b) ts ∧
  (1 ≤ h1.orderCount → ∀ t ∈ ts, h1.lastOrderTime + orderInterval ≤ t) ∧
  (∀ t ∈ ts, t ≤ h2.lastOrderTime) ∧
  (ts ≠ [] → 1 ≤ h2.orderCount) ∧
  (1 ≤ h1.orderCount → 1 ≤ h2.orderCount ∧ h1.lastOrderTime ≤ h2.lastOrderTime)

/-- The order state: what placements read and write. -/
def sameOrders (h1 h2 : MyEventHandler) : Prop :=
  h2.orderCount = h1.orderCount ∧ h2.lastOrderTime = h1.lastOrderTime ∧
  h2.marketDataOnly = h1.marketDataOnly ∧ h2.sent = h1.sent ∧
  h2.orderTimestamps = h1.orderTimestamps

/-- A stretch of a run from `h1` to `h2`: requests are only ever added, and
when none was added the registry has not grown. -/
def quiet (h1 h2 : MyEventHandler) : Prop :=
  h1.sent.length ≤ h2.sent.length ∧
  (h2.sent.length = h1.sent.length → registryWithin h1 h2)

/-- The registry of `h` has no entry under the empty string. -/
def noEmptyId (h : MyEventHandler) : Prop :=
  h.orderTimestamps.find "" = none

/-- Samples recorded plus orders pending do not exceed the orders placed. -/
def conserved (h : MyEventHandler) : Prop :=
  (h.latencies.length : Int) + (h.orderTimestamps.length : Int) ≤ h.orderCount

/-! ## Sample inputs -/

/-- A sample parser: every string but `"n/a"` parses. -/
def sampleStod (s : String) : Option Float :=
  if s = "n/a" then none else some 50000.0

/-- A market depth message carrying a bid and an ask. -/
def sampleQuoteMessage : Message :=
  { type := MessageType.MARKET_DATA_EVENTS_MARKET_DEPTH
    time := 1700000000000000000
    timeReceived := 1700000000000400000
    correlationIdList := ["1"]
    elementList := [[("BID_PRICE", "50000.1")], [("ASK_PRICE", "50000.2")]]
    clock := 1700000000000500000
    placeClock := 1700000000123000000
    sendClock := 1700000000123400000 }

/-- A market depth message whose bid fails to parse. -/
def sampleBadQuoteMessage : Message :=
  { sampleQuoteMessage with elementList := [[("BID_PRICE", "n/a"), ("ASK_PRICE", "50000.2")]] }

/-- A market data event that arrives at `now` with `k` copies of the sample
quote message. -/
def sampleQuoteEvent (now : Int) (k : Nat) : Event :=
  { type := EventType.SUBSCRIPTION_DATA
    messageList := List.replicate k sampleQuoteMessage
    now := now }

/-- A market data event that arrives at `now` with one sample quote message,
for which `placeTestOrder` would read the clock at `placeClock` and at
`sendClock`. -/
def sampleQuoteEventAt (now placeClock sendClock : Int) : Event :=
  { type := EventType.SUBSCRIPTION_DATA
    messageList := [{ sampleQuoteMessage with placeClock := placeClock, sendClock := sendClock }]
    now := now }

/-- A subscription status event that reports the failure of the private
subscription. -/
def sampleFailureEvent : Event :=
  { type := EventType.SUBSCRIPTION_STATUS
    messageList :=
      [{ sampleQuoteMessage with type := MessageType.OTHER, elementList := [] },
       { sampleQuoteMessage with
         type := MessageType.SUBSCRIPTION_FAILURE_DUE_TO_CONNECTION_FAILURE
         elementList := [] }]
    now := 500 }

/-- A handler with one pending order `ord1`, sent at `1700000000000000000`. -/
def samplePendingHandler : MyEventHandler :=
  { MyEventHandler.fresh false 1700000000000000000 with
    orderCount := 1
    orderTimestamps := [("ord1", 1700000000000000000)] }

/-- A confirmation message for `ord1` with exchange timestamp `time`, received
800 microseconds after the order was sent. -/
def sampleConfirmation (type : MessageType) (time : Int) : Message :=
  { type := type
    time := time
    timeReceived := 1700000000000800000
    correlationIdList := ["test_order_1"]
    elementList := [[("CLIENT_ORDER_ID", "ord1"), ("STATUS", "live")]]
    clock := 1700000000000800000
    placeClock := 0
    sendClock := 0 }

/-- A response event for the order `id`, with an epoch exchange timestamp,
received by the session library at `timeReceived`. -/
def sampleResponseEvent (id : String) (timeReceived : Int) : Event :=
  { type := EventType.RESPONSE
    messageList :=
      [{ sampleConfirmation MessageType.CREATE_ORDER 0 with
         timeReceived := timeReceived
         elementList := [[("CLIENT_ORDER_ID", id)]] }]
    now := timeReceived }

/-- A run in trading mode: an order `ord123` is placed and confirmed after 800
microseconds. -/
def sampleRunOneSample : List Event :=
  [sampleQuoteEventAt 1700000000122000000 1700000000123000000 1700000000123400000,
   sampleResponseEvent "ord123" 1700000000124200000]

/-- A run in trading mode: two orders are placed twenty seconds apart and
confirmed after 800 and 500 microseconds; then the private subscription fails. -/
def sampleRunDowngraded : List Event :=
  sampleRunOneSample ++
  [sampleQuoteEventAt 1700000020122000000 1700000020456000000 1700000020456400000,
   sampleResponseEvent "ord20456" 1700000020456900000,
   sampleFailureEvent]

theorem placeTestOrder_sent_length (h : MyEventHandler) (b : Float) (c s : Int) :
    (placeTestOrder h b c s).sent.length = h.sent.length + 1 := by
  simp [placeTestOrder]

theorem processDataMessage_of_marketData (stod : String → Option Float) (now : Int)
    (h : MyEventHandler) (m : Message) (hm : isMarketDataMessage m = true) :
    processDataMessage stod now h m = processMarketDataMessage stod now h m := by
  simp only [isMarketDataMessage, Bool.and_eq_true, decide_eq_true_eq,
    Bool.not_eq_true'] at hm
  simp [processDataMessage, hm.1, hm.2]

theorem foldl_preserves {α β : Type} (P : α → Prop) (f : α → β → α)
    (hf : ∀ a b, P a → P (f a b)) : ∀ (l : List β) (a : α), P a → P (l.foldl f a) := by
  intro l
  induction l with
  | nil => intro a ha; exact ha
  | cons b l ih => intro a ha; exact ih (f a b) (hf a b ha)

theorem wrapInt32_of_inRange (x : Int) (h1 : -2147483648 ≤ x) (h2 : x < 2147483648) :
    wrapInt32 x = x := by
  unfold wrapInt32
  omega

theorem sameControl_refl (h : MyEventHandler) : sameControl h h :=
  ⟨rfl, rfl, rfl, rfl, rfl⟩

theorem sameControl_trans {h1 h2 h3 : MyEventHandler} (a : sameControl h1 h2)
    (b : sameControl h2 h3) : sameControl h1 h3 := by
  obtain ⟨a1, a2, a3, a4, a5⟩ := a
  obtain ⟨b1, b2, b3, b4, b5⟩ := b
  exact ⟨b1.trans a1, b2.trans a2, b3.trans a3, b4.trans a4, b5.trans a5⟩

theorem processOrderUpdateElement_control (m : Message) (h : MyEventHandler) (el : Element) :
    sameControl h (processOrderUpdateElement m h el) := by
  unfold processOrderUpdateElement
  dsimp only
  split <;> exact ⟨rfl, rfl, rfl, rfl, rfl⟩

theorem processOrderChannelElement_control (m : Message) (h : MyEventHandler) (el : Element) :
    sameControl h (processOrderChannelElement m h el) := by
  unfold processOrderChannelElement
  split
  · split <;> exact ⟨rfl, rfl, rfl, rfl, rfl⟩
  · exact ⟨rfl, rfl, rfl, rfl, rfl⟩

theorem processResponseElement_control (m : Message) (h : MyEventHandler) (el : Element) :
    sameControl h (processResponseElement m h el) := by
  unfold processResponseElement
  split
  · split
    · dsimp only
      split <;> exact ⟨rfl, rfl, rfl, rfl, rfl⟩
    · exact ⟨rfl, rfl, rfl, rfl, rfl⟩
  · exact ⟨rfl, rfl, rfl, rfl, rfl⟩

theorem foldl_control {β : Type} (f : MyEventHandler → β → MyEventHandler)
    (hf : ∀ a b, sameControl a (f a b)) (l : List β) (h : MyEventHandler) :
    sameControl h (l.foldl f h) :=
  foldl_preserves (fun x => sameControl h x) f
    (fun a b ha => sameControl_trans ha (hf a b)) l h (sameControl_refl h)

theorem processResponseMessage_control (h : MyEventHandler) (m : Message) :
    sameControl h (processResponseMessage h m) :=
  foldl_control _ (processResponseElement_control m) _ h

theorem processStatusMessages_orderCount (h : MyEventHandler) (ms : List Message) :
    (processStatusMessages h ms).orderCount = h.orderCount := by
  induction ms with
  | nil => rfl
  | cons m ms ih =>
    unfold processStatusMessages
    split
    · rfl
    · exact ih

theorem processMarketDataMessage_bounded (stod : String → Option Float) (now : Int)
    (h : MyEventHandler) (m : Message) (hb : orderCountBounded h) :
    orderCountBounded (processMarketDataMessage stod now h m) := by
  obtain ⟨h0, h3⟩ := hb
  unfold processMarketDataMessage orderCountBounded
  dsimp only
  split
  · split
    · split
      · rename_i hc
        have hlt : h.orderCount < 3 := hc.2
        have hw : wrapInt32 (h.orderCount + 1) = h.orderCount + 1 :=
          wrapInt32_of_inRange _ (by omega) (by omega)
        simp only [placeTestOrder, hw]
        omega
      · exact ⟨h0, h3⟩
    · exact ⟨h0, h3⟩
  · exact ⟨h0, h3⟩

theorem processDataMessage_bounded (stod : String → Option Float) (now : Int)
    (h : MyEventHandler) (m : Message) (hb : orderCountBounded h) :
    orderCountBounded (processDataMessage stod now h m) := by
  unfold processDataMessage
  split
  · have hc := foldl_control _ (processOrderUpdateElement_control m) m.elementList h
    unfold orderCountBounded
    rw [hc.1]
    exact hb
  · split
    · have hc := foldl_control _ (processOrderChannelElement_control m) m.elementList h
      unfold orderCountBounded
      rw [hc.1]
      exact hb
    · exact processMarketDataMessage_bounded stod now h m hb

theorem processEvent_bounded (stod : String → Option Float) (h : MyEventHandler) (e : Event)
    (hb : orderCountBounded h) : orderCountBounded (processEvent stod h e) := by
  unfold processEvent
  split
  · unfold orderCountBounded
    rw [processStatusMessages_orderCount]
    exact hb
  · exact foldl_preserves orderCountBounded _
      (fun a b ha => processDataMessage_bounded stod e.now a b ha) _ h hb
  · have hc := foldl_control _ processResponseMessage_control e.messageList h
    unfold orderCountBounded
    rw [hc.1]
    exact hb
  · exact hb

theorem run_bounded (stod : String → Option Float) (h : MyEventHandler) (es : List Event)
    (hb : orderCountBounded h) : orderCountBounded (run stod h es) :=
  foldl_preserves orderCountBounded _ (fun a b ha => processEvent_bounded stod a b ha) es h hb

theorem toSeconds_ge_ten_iff (d : Int) : 10 ≤ toSeconds d ↔ orderInterval ≤ d := by
  unfold toSeconds orderInterval
  rcases le_or_lt 0 d with h | h
  · rw [Int.tdiv_eq_ediv h (by norm_num)]
    omega
  · have hneg : Int.tdiv d 1000000000 = -(Int.tdiv (-d) 1000000000) := by
      rw [Int.neg_tdiv, neg_neg]
    rw [hneg, Int.tdiv_eq_ediv (by omega) (by norm_num)]
    omega

/-! ## The correlation registry -/

theorem Registry.find_erase_self (r : Registry) (id : String) :
    (r.erase id).find id = none := by
  unfold Registry.find Registry.erase
  induction r with
  | nil => rfl
  | cons p r ih =>
    by_cases hp : p.1 = id
    · rw [List.filter_cons_of_neg (by simp [hp])]
      exact ih
    · rw [List.filter_cons_of_pos (by simp [hp])]
      obtain ⟨k, v⟩ := p
      rw [List.lookup_cons]
      have hne : (id == k) = false := by
        rw [beq_eq_false_iff_ne]
        exact fun h => hp h.symm
      rw [hne]
      exact ih

theorem Registry.find_erase_of_ne (r : Registry) (id k : String) (hk : k ≠ id) :
    (r.erase id).find k = r.find k := by
  unfold Registry.find Registry.erase
  induction r with
  | nil => rfl
  | cons p r ih =>
    obtain ⟨a, v⟩ := p
    by_cases hp : a = id
    · rw [List.filter_cons_of_neg (by simp [hp])]
      rw [List.lookup_cons]
      have hne : (k == a) = false := by
        rw [beq_eq_false_iff_ne, hp]
        exact hk
      rw [hne]
      exact ih
    · rw [List.filter_cons_of_pos (by simp [hp])]
      rw [List.lookup_cons, List.lookup_cons, ih]

theorem Registry.length_erase_le (r : Registry) (id : String) :
    (r.erase id).length ≤ r.length :=
  List.length_filter_le _ r

theorem Registry.find_assign_self (r : Registry) (id : String) (t : Int) :
    (r.assign id t).find id = some t := by
  unfold Registry.find Registry.assign
  rw [List.lookup_cons, beq_self_eq_true]

theorem Registry.find_assign_of_ne (r : Registry) (id k : String) (t : Int) (hk : k ≠ id) :
    (r.assign id t).find k = r.find k := by
  have h1 := Registry.find_erase_of_ne r id k hk
  unfold Registry.find Registry.assign at *
  rw [List.lookup_cons]
  have hne : (k == id) = false := by
    rw [beq_eq_false_iff_ne]
    exact hk
  rw [hne]
  exact h1

theorem registryWithin_refl (h : MyEventHandler) : registryWithin h h :=
  ⟨fun _ _ x => x, le_refl _⟩

theorem registryWithin_of_eq {h1 h2 : MyEventHandler}
    (he : h2.orderTimestamps = h1.orderTimestamps) : registryWithin h1 h2 := by
  unfold registryWithin
  rw [he]
  exact ⟨fun _ _ x => x, le_refl _⟩

theorem registryWithin_trans {h1 h2 h3 : MyEventHandler} (a : registryWithin h1 h2)
    (b : registryWithin h2 h3) : registryWithin h1 h3 :=
  ⟨fun id t x => a.1 id t (b.1 id t x), le_trans b.2 a.2⟩

theorem registryWithin_erase (h1 h2 : MyEventHandler) (id : String)
    (he : h2.orderTimestamps = h1.orderTimestamps.erase id) : registryWithin h1 h2 := by
  unfold registryWithin
  rw [he]
  refine ⟨?_, Registry.length_erase_le _ _⟩
  intro k t hk
  by_cases hki : k = id
  · subst hki
    rw [Registry.find_erase_self] at hk
    exact absurd hk (by simp)
  · rw [Registry.find_erase_of_ne _ _ _ hki] at hk
    exact hk

theorem processOrderUpdateElement_within (m : Message) (h : MyEventHandler) (el : Element) :
    registryWithin h (processOrderUpdateElement m h el) := by
  unfold processOrderUpdateElement
  dsimp only
  split
  · exact registryWithin_erase _ _ _ rfl
  · exact registryWithin_refl h

theorem processOrderChannelElement_within (m : Message) (h : MyEventHandler) (el : Element) :
    registryWithin h (processOrderChannelElement m h el) := by
  unfold processOrderChannelElement
  split
  · split
    · exact registryWithin_erase _ _ _ rfl
    · exact registryWithin_refl h
  · exact registryWithin_refl h

theorem processResponseElement_within (m : Message) (h : MyEventHandler) (el : Element) :
    registryWithin h (processResponseElement m h el) := by
  unfold processResponseElement
  split
  · split
    · dsimp only
      split <;> exact registryWithin_erase _ _ _ rfl
    · exact registryWithin_refl h
  · exact registryWithin_refl h

theorem foldl_within {β : Type} (f : MyEventHandler → β → MyEventHandler)
    (hf : ∀ a b, registryWithin a (f a b)) (l : List β) (h : MyEventHandler) :
    registryWithin h (l.foldl f h) :=
  foldl_preserves (fun x => registryWithin h x) f
    (fun a b ha => registryWithin_trans ha (hf a b)) l h (registryWithin_refl h)

theorem processResponseMessage_within (h : MyEventHandler) (m : Message) :
    registryWithin h (processResponseMessage h m) :=
  foldl_within _ (processResponseElement_within m) _ h

theorem processStatusMessages_cases (h : MyEventHandler) (ms : List Message) :
    (processStatusMessages h ms = h ∧
      ∀ m ∈ ms, m.type ≠ MessageType.SUBSCRIPTION_FAILURE_DUE_TO_CONNECTION_FAILURE) ∨
    (processStatusMessages h ms = { h with marketDataOnly := true } ∧
      ∃ m ∈ ms, m.type = MessageType.SUBSCRIPTION_FAILURE_DUE_TO_CONNECTION_FAILURE) := by
  induction ms with
  | nil =>
    left
    exact ⟨rfl, fun m hm => by simp at hm⟩
  | cons m ms ih =>
    unfold processStatusMessages
    split
    · rename_i hty
      right
      exact ⟨rfl, m, List.mem_cons_self m ms, hty⟩
    · rename_i hty
      rcases ih with ⟨he, hall⟩ | ⟨he, m2, hm2, hty2⟩
      · left
        refine ⟨he, ?_⟩
        intro x hx
        rcases List.mem_cons.mp hx with hx | hx
        · rw [hx]; exact hty
        · exact hall x hx
      · right
        exact ⟨he, m2, List.mem_cons_of_mem m hm2, hty2⟩

/-! ## Market-data-only mode -/

theorem downgraded_of_control {h1 h2 h3 : MyEventHandler} (a : downgraded h1 h2)
    (c : sameControl h2 h3) (w : registryWithin h2 h3) : downgraded h1 h3 := by
  obtain ⟨a1, a2, a3, a4, a5⟩ := a
  obtain ⟨c1, _, c3, c4, c5⟩ := c
  exact ⟨c4.trans a1, c1.trans a2, c5.trans a3, c3.trans a4, registryWithin_trans a5 w⟩

theorem processDataMessage_downgraded (stod : String → Option Float) (now : Int)
    (h1 h2 : MyEventHandler) (m : Message) (a : downgraded h1 h2) :
    downgraded h1 (processDataMessage stod now h2 m) := by
  unfold processDataMessage
  split
  · exact downgraded_of_control a (foldl_control _ (processOrderUpdateElement_control m) _ h2)
      (foldl_within _ (processOrderUpdateElement_within m) _ h2)
  · split
    · exact downgraded_of_control a
        (foldl_control _ (processOrderChannelElement_control m) _ h2)
        (foldl_within _ (processOrderChannelElement_within m) _ h2)
    · obtain ⟨a1, a2, a3, a4, a5⟩ := a
      unfold processMarketDataMessage
      simp only [a1, Bool.not_true, Bool.false_eq_true, if_false, ite_self]
      exact ⟨rfl, a2, a3, a4, a5⟩

theorem processEvent_downgraded (stod : String → Option Float) (h1 h2 : MyEventHandler)
    (e : Event) (a : downgraded h1 h2) : downgraded h1 (processEvent stod h2 e) := by
  unfold processEvent
  split
  · rcases processStatusMessages_cases h2 e.messageList with ⟨he, _⟩ | ⟨he, _⟩
    · rw [he]; exact a
    · rw [he]
      obtain ⟨a1, a2, a3, a4, a5⟩ := a
      exact ⟨rfl, a2, a3, a4, a5⟩
  · exact foldl_preserves (fun x => downgraded h1 x) _
      (fun x m hx => processDataMessage_downgraded stod e.now h1 x m hx) _ h2 a
  · exact downgraded_of_control a (foldl_control _ processResponseMessage_control _ h2)
      (foldl_within _ processResponseMessage_within _ h2)
  · exact a

theorem run_downgraded (stod : String → Option Float) (h1 h2 : MyEventHandler)
    (es : List Event) (a : downgraded h1 h2) : downgraded h1 (run stod h2 es) :=
  foldl_preserves (fun x => downgraded h1 x) _
    (fun x e hx => processEvent_downgraded stod h1 x e hx) es h2 a

/-! ## Spacing of placements -/

theorem Spaced.nil_of_control {h1 h2 : MyEventHandler} (hc : h2.orderCount = h1.orderCount)
    (hl : h2.lastOrderTime = h1.lastOrderTime) : Spaced h1 [] h2 := by
  refine ⟨List.Pairwise.nil, ?_, ?_, ?_, ?_⟩
  · intro _ t ht; simp at ht
  · intro t ht; simp at ht
  · intro hne; exact absurd rfl hne
  · intro h1c; rw [hc, hl]; exact ⟨h1c, le_refl _⟩

theorem Spaced.append {h1 h2 h3 : MyEventHandler} {ts1 ts2 : List Int}
    (a : Spaced h1 ts1 h2) (b : Spaced h2 ts2 h3) : Spaced h1 (ts1 ++ ts2) h3 := by
  obtain ⟨a1, a2, a3, a4, a5⟩ := a
  obtain ⟨b1, b2, b3, b4, b5⟩ := b
  have hG : (0 : Int) ≤ orderInterval := by unfold orderInterval; norm_num
  refine ⟨?_, ?_, ?_, ?_, ?_⟩
  · rw [List.pairwise_append]
    refine ⟨a1, b1, ?_⟩
    intro x hx y hy
    have hne : ts1 ≠ [] := List.ne_nil_of_mem hx
    have h2c := a4 hne
    have hy2 := b2 h2c y hy
    have hx2 := a3 x hx
    omega
  · intro h1c t ht
    rcases List.mem_append.mp ht with ht | ht
    · exact a2 h1c t ht
    · have h5 := a5 h1c
      have := b2 h5.1 t ht
      omega
  · intro t ht
    rcases List.mem_append.mp ht with ht | ht
    · have hne : ts1 ≠ [] := List.ne_nil_of_mem ht
      have := (b5 (a4 hne)).2
      have := a3 t ht
      omega
    · exact b3 t ht
  · intro hne
    by_cases h2e : ts2 = []
    · subst h2e
      rw [List.append_nil] at hne
      exact (b5 (a4 hne)).1
    · exact b4 h2e
  · intro h1c
    have h5 := a5 h1c
    have h6 := b5 h5.1
    exact ⟨h6.1, by omega⟩

theorem processMarketDataMessage_spaced (stod : String → Option Float) (now : Int)
    (h : MyEventHandler) (m : Message) (hb : orderCountBounded h) :
    Spaced h
      (if placedOrder h (processMarketDataMessage stod now h m) then [now] else [])
      (processMarketDataMessage stod now h m) := by
  obtain ⟨h0, h3⟩ := hb
  have hG : (0 : Int) ≤ orderInterval := by unfold orderInterval; norm_num
  unfold processMarketDataMessage
  dsimp only
  by_cases hq : ((extractQuote stod m.elementList).hasBid &&
      (extractQuote stod m.elementList).hasAsk) = true
  · by_cases hmd : h.marketDataOnly = true
    · simp only [hq, hmd, placedOrder]
      simp only [Bool.not_true, if_true, Bool.false_eq_true, if_false]
      rw [if_neg (by omega)]
      exact Spaced.nil_of_control rfl rfl
    · by_cases hc : (h.orderCount = 0 ∨ toSeconds (now - h.lastOrderTime) ≥ 10) ∧
          h.orderCount < 3
      · have hw : wrapInt32 (h.orderCount + 1) = h.orderCount + 1 :=
          wrapInt32_of_inRange _ (by omega) (by omega)
        simp only [Bool.not_eq_true] at hmd
        simp only [hq, hmd, hc, placedOrder, placeTestOrder, Bool.not_false, if_true, and_self,
          List.length_append, List.length_singleton, hw]
        refine ⟨List.pairwise_singleton _ _, ?_, ?_, ?_, ?_⟩
        · intro h1c t ht
          rw [List.mem_singleton] at ht
          subst ht
          rcases hc.1 with hz | hs
          · omega
          · have := (toSeconds_ge_ten_iff _).mp hs
            show h.lastOrderTime + orderInterval ≤ t
            omega
        · intro t ht
          rw [List.mem_singleton] at ht
          subst ht
          exact le_refl _
        · intro _
          show 1 ≤ h.orderCount + 1
          omega
        · intro h1c
          rcases hc.1 with hz | hs
          · omega
          · have := (toSeconds_ge_ten_iff _).mp hs
            refine ⟨?_, ?_⟩
            · show 1 ≤ h.orderCount + 1
              omega
            · show h.lastOrderTime ≤ now
              omega
      · simp only [Bool.not_eq_true] at hmd
        simp only [hq, hmd, hc, placedOrder, Bool.not_false, if_true, if_false]
        rw [if_neg (by omega)]
        exact Spaced.nil_of_control rfl rfl
  · simp only [hq, placedOrder]
    simp only [Bool.false_eq_true, if_false]
    rw [if_neg (by omega)]
    exact Spaced.nil_of_control rfl rfl

theorem processDataMessage_spaced (stod : String → Option Float) (now : Int)
    (h : MyEventHandler) (m : Message) (hb : orderCountBounded h) :
    Spaced h
      (if placedOrder h (processDataMessage stod now h m) then [now] else [])
      (processDataMessage stod now h m) := by
  unfold processDataMessage
  split
  · have hc := foldl_control _ (processOrderUpdateElement_control m) m.elementList h
    have hn : ¬ placedOrder h (m.elementList.foldl (processOrderUpdateElement m) h) := by
      unfold placedOrder
      rw [hc.2.2.2.2]
      omega
    rw [if_neg hn]
    exact Spaced.nil_of_control hc.1 hc.2.2.1
  · split
    · have hc := foldl_control _ (processOrderChannelElement_control m) m.elementList h
      have hn : ¬ placedOrder h (m.elementList.foldl (processOrderChannelElement m) h) := by
        unfold placedOrder
        rw [hc.2.2.2.2]
        omega
      rw [if_neg hn]
      exact Spaced.nil_of_control hc.1 hc.2.2.1
    · exact processMarketDataMessage_spaced stod now h m hb

theorem placementsInMessages_spaced (stod : String → Option Float) (now : Int) :
    ∀ (ms : List Message) (h : MyEventHandler), orderCountBounded h →
      Spaced h (placementsInMessages stod now h ms)
        (ms.foldl (processDataMessage stod now) h) := by
  intro ms
  induction ms with
  | nil =>
    intro h _
    exact Spaced.nil_of_control rfl rfl
  | cons m ms ih =>
    intro h hb
    unfold placementsInMessages
    rw [List.foldl_cons]
    exact Spaced.append (processDataMessage_spaced stod now h m hb)
      (ih _ (processDataMessage_bounded stod now h m hb))

theorem processStatusMessages_lastOrderTime (h : MyEventHandler) (ms : List Message) :
    (processStatusMessages h ms).lastOrderTime = h.lastOrderTime := by
  induction ms with
  | nil => rfl
  | cons m ms ih =>
    unfold processStatusMessages
    split
    · rfl
    · exact ih

theorem placementsInEvent_spaced (stod : String → Option Float) (h : MyEventHandler)
    (e : Event) (hb : orderCountBounded h) :
    Spaced h (placementsInEvent stod h e) (processEvent stod h e) := by
  unfold placementsInEvent processEvent
  cases ht : e.type
  · rw [if_neg (by decide)]
    exact Spaced.nil_of_control (processStatusMessages_orderCount h _)
      (processStatusMessages_lastOrderTime h _)
  · rw [if_pos rfl]
    exact placementsInMessages_spaced stod e.now e.messageList h hb
  · rw [if_neg (by decide)]
    have hc := foldl_control _ processResponseMessage_control e.messageList h
    exact Spaced.nil_of_control hc.1 hc.2.2.1
  · rw [if_neg (by decide)]
    exact Spaced.nil_of_control rfl rfl

theorem placementTimes_spaced (stod : String → Option Float) :
    ∀ (es : List Event) (h : MyEventHandler), orderCountBounded h →
      Spaced h (placementTimes stod h es) (run stod h es) := by
  intro es
  induction es with
  | nil =>
    intro h _
    exact Spaced.nil_of_control rfl rfl
  | cons e es ih =>
    intro h hb
    unfold placementTimes run
    rw [List.foldl_cons]
    exact Spaced.append (placementsInEvent_spaced stod h e hb)
      (ih _ (processEvent_bounded stod h e hb))

/-- A handler that has placed an order and receives, within the interval, a
market data message: nothing but the message counter changes. -/
theorem processDataMessage_within_interval (stod : String → Option Float) (now : Int)
    (h : MyEventHandler) (m : Message) (hm : isMarketDataMessage m = true)
    (hc : h.orderCount ≠ 0) (hnow : now - h.lastOrderTime < orderInterval) :
    processDataMessage stod now h m =
      { h with messageCount := wrapInt32 (h.messageCount + 1) } := by
  rw [processDataMessage_of_marketData stod now h m hm]
  unfold processMarketDataMessage
  dsimp only
  have hs : ¬ (toSeconds (now - h.lastOrderTime) ≥ 10) := by
    intro hge
    have := (toSeconds_ge_ten_iff _).mp hge
    omega
  have hcond : ¬ ((h.orderCount = 0 ∨ toSeconds (now - h.lastOrderTime) ≥ 10) ∧
      h.orderCount < 3) := by
    rintro ⟨hz | hge, _⟩
    · exact hc hz
    · exact hs hge
  rw [if_neg hcond]
  split
  · split <;> rfl
  · rfl

theorem quoteMessages_within_interval (stod : String → Option Float) (now : Int) :
    ∀ (ms : List Message) (h : MyEventHandler),
      (∀ m ∈ ms, isMarketDataMessage m = true) → h.orderCount ≠ 0 →
      now - h.lastOrderTime < orderInterval →
      sameOrders h (ms.foldl (processDataMessage stod now) h) ∧
      placementsInMessages stod now h ms = [] := by
  intro ms
  induction ms with
  | nil =>
    intro h _ _ _
    exact ⟨⟨rfl, rfl, rfl, rfl, rfl⟩, rfl⟩
  | cons m ms ih =>
    intro h hall hc hnow
    have hm := hall m (List.mem_cons_self m ms)
    have hstep := processDataMessage_within_interval stod now h m hm hc hnow
    have hrest := ih (processDataMessage stod now h m)
      (fun x hx => hall x (List.mem_cons_of_mem m hx))
      (by rw [hstep]; exact hc) (by rw [hstep]; exact hnow)
    have hn : ¬ placedOrder h (processDataMessage stod now h m) := by
      rw [hstep]
      unfold placedOrder
      dsimp only
      omega
    rw [List.foldl_cons]
    unfold placementsInMessages
    rw [hrest.2, List.append_nil, if_neg hn]
    refine ⟨?_, rfl⟩
    obtain ⟨r1, r2, r3, r4, r5⟩ := hrest.1
    rw [hstep] at r1 r2 r3 r4 r5 ⊢
    exact ⟨r1, r2, r3, r4, r5⟩

theorem isValidQuoteEvent_spec (stod : String → Option Float) (e : Event)
    (hv : isValidQuoteEvent stod e = true) :
    e.type = EventType.SUBSCRIPTION_DATA ∧
    ∀ m ∈ e.messageList, isMarketDataMessage m = true ∧
      (extractQuote stod m.elementList).hasBid = true ∧
      (extractQuote stod m.elementList).hasAsk = true := by
  unfold isValidQuoteEvent at hv
  rw [Bool.and_eq_true, decide_eq_true_eq, List.all_eq_true] at hv
  refine ⟨hv.1, ?_⟩
  intro m hm
  have := hv.2 m hm
  simp only [Bool.and_eq_true] at this
  exact ⟨this.1.1, this.1.2, this.2⟩

/-- The first order: a handler in trading mode that has placed nothing places
an order on a market data message with bid and ask, whatever the clock says. -/
theorem processDataMessage_first_order (stod : String → Option Float) (now : Int)
    (h : MyEventHandler) (m : Message) (hm : isMarketDataMessage m = true)
    (hb : (extractQuote stod m.elementList).hasBid = true)
    (ha : (extractQuote stod m.elementList).hasAsk = true)
    (hmd : h.marketDataOnly = false) (hc : h.orderCount = 0) :
    processDataMessage stod now h m =
      { placeTestOrder { h with messageCount := wrapInt32 (h.messageCount + 1) }
          (extractQuote stod m.elementList).bestBid m.placeClock m.sendClock with
        lastOrderTime := now } := by
  rw [processDataMessage_of_marketData stod now h m hm]
  unfold processMarketDataMessage
  simp [hb, ha, hmd, hc]

theorem processEvent_quotes_within_interval (stod : String → Option Float)
    (h : MyEventHandler) (e : Event) (hv : isValidQuoteEvent stod e = true)
    (hc : h.orderCount ≠ 0) (hnow : e.now - h.lastOrderTime < orderInterval) :
    sameOrders h (processEvent stod h e) ∧ placementsInEvent stod h e = [] := by
  obtain ⟨ht, hall⟩ := isValidQuoteEvent_spec stod e hv
  unfold processEvent placementsInEvent
  rw [ht, if_pos rfl]
  exact quoteMessages_within_interval stod e.now e.messageList h
    (fun m hm => (hall m hm).1) hc hnow

/-! ## The order placement policy -/

/-- C1: for every handler state and every market data message handled by
`processEvent` for an event that arrived at `now`, an order is placed if and
only if the message yields a parseable bid and a parseable ask, the handler is
not in market-data-only mode, `orderCount < 3`, and `orderCount = 0` or at
least 10 whole seconds lie between `lastOrderTime` and `now`.  When the
condition holds the new state is that of `placeTestOrder`; when it fails, no
request is sent and counter, registry and `lastOrderTime` are unchanged. -/
theorem placement_iff_policy (stod : String → Option Float) (now : Int)
    (h : MyEventHandler) (m : Message) (hm : isMarketDataMessage m = true) :
    (placedOrder h (processDataMessage stod now h m) ↔
      ((extractQuote stod m.elementList).hasBid = true ∧
        (extractQuote stod m.elementList).hasAsk = true ∧
        h.marketDataOnly = false ∧ h.orderCount < 3 ∧
        (h.orderCount = 0 ∨ toSeconds (now - h.lastOrderTime) ≥ 10))) ∧
    (placedOrder h (processDataMessage stod now h m) →
      processDataMessage stod now h m =
        { placeTestOrder { h with messageCount := wrapInt32 (h.messageCount + 1) }
            (extractQuote stod m.elementList).bestBid m.placeClock m.sendClock with
          lastOrderTime := now }) ∧
    (¬ placedOrder h (processDataMessage stod now h m) →
      (processDataMessage stod now h m).sent = h.sent ∧
      (processDataMessage stod now h m).orderCount = h.orderCount ∧
      (processDataMessage stod now h m).orderTimestamps = h.orderTimestamps ∧
      (processDataMessage stod now h m).lastOrderTime = h.lastOrderTime) := by
  rw [processDataMessage_of_marketData stod now h m hm]
  unfold processMarketDataMessage placedOrder
  by_cases hb : (extractQuote stod m.elementList).hasBid = true <;>
  by_cases ha : (extractQuote stod m.elementList).hasAsk = true <;>
  by_cases hmd : h.marketDataOnly = true <;>
  by_cases hc : (h.orderCount = 0 ∨ toSeconds (now - h.lastOrderTime) ≥ 10) ∧ h.orderCount < 3 <;>
  simp [hb, ha, hmd, hc, placeTestOrder_sent_length]
  first
    | tauto
    | (intros; omega)

/-- Witness for C1: a fresh handler in trading mode places an order on the
sample quote message, and none on the message whose bid does not parse. -/
theorem placement_iff_policy_witness :
    isMarketDataMessage sampleQuoteMessage = true ∧
    placedOrder (MyEventHandler.fresh false 0)
      (processDataMessage sampleStod 5 (MyEventHandler.fresh false 0) sampleQuoteMessage) ∧
    ¬ placedOrder (MyEventHandler.fresh false 0)
      (processDataMessage sampleStod 5 (MyEventHandler.fresh false 0) sampleBadQuoteMessage) :=
  ⟨by decide,
   (placement_iff_policy sampleStod 5 (MyEventHandler.fresh false 0) sampleQuoteMessage
      (by decide)).1.2 (by decide),
   fun hp => absurd
     ((placement_iff_policy sampleStod 5 (MyEventHandler.fresh false 0) sampleBadQuoteMessage
        (by decide)).1.1 hp).1 (by decide)⟩

/-- C2: starting from a freshly constructed handler, in either mode, after
any finite sequence of events of any kind `orderCount` is at most 3 (and not
negative). -/
theorem orderCount_le_three (stod : String → Option Float) (marketDataOnly : Bool) (t0 : Int)
    (es : List Event) :
    (run stod (MyEventHandler.fresh marketDataOnly t0) es).orderCount ≤ 3 ∧
    0 ≤ (run stod (MyEventHandler.fresh marketDataOnly t0) es).orderCount := by
  have hb := run_bounded stod (MyEventHandler.fresh marketDataOnly t0) es
    ⟨le_refl _, by simp [MyEventHandler.fresh]⟩
  exact ⟨hb.2, hb.1⟩

/-- C3, as amended.  In any run from a fresh handler, in either mode, each
placement is triggered by an event that arrived at least 10 seconds after the
event that triggered any earlier placement.  In particular, when the handler
is constructed in trading mode (`marketDataOnly = false`) and receives three
market data events with valid bid and ask, the second and third less than 10
seconds after the first, exactly one order is placed: on the first message of
the first event, and none on its other messages nor on the other two events. -/
theorem placements_spaced (stod : String → Option Float) (marketDataOnly : Bool) (t0 : Int)
    (es : List Event) (e1 e2 e3 : Event) (m1 : Message) (rest : List Message)
    (hv1 : isValidQuoteEvent stod e1 = true) (hv2 : isValidQuoteEvent stod e2 = true)
    (hv3 : isValidQuoteEvent stod e3 = true) (hms : e1.messageList = m1 :: rest)
    (h12 : e2.now - e1.now < orderInterval) (h13 : e3.now - e1.now < orderInterval) :
    List.Pairwise (fun a b => a + orderInterval ≤ b)
      (placementTimes stod (MyEventHandler.fresh marketDataOnly t0) es) ∧
    (processDataMessage stod e1.now (MyEventHandler.fresh false t0) m1).sent.length = 1 ∧
    (processEvent stod (MyEventHandler.fresh false t0) e1).sent =
      (processDataMessage stod e1.now (MyEventHandler.fresh false t0) m1).sent ∧
    (run stod (MyEventHandler.fresh false t0) [e1, e2]).sent =
      (processEvent stod (MyEventHandler.fresh false t0) e1).sent ∧
    (run stod (MyEventHandler.fresh false t0) [e1, e2, e3]).sent =
      (processEvent stod (MyEventHandler.fresh false t0) e1).sent ∧
    (run stod (MyEventHandler.fresh false t0) [e1, e2, e3]).orderCount = 1 ∧
    placementTimes stod (MyEventHandler.fresh false t0) [e1, e2, e3] = [e1.now] := by
  have hG : (0 : Int) < orderInterval := by unfold orderInterval; norm_num
  refine ⟨(placementTimes_spaced stod es _ ⟨le_refl _, by simp [MyEventHandler.fresh]⟩).1, ?_⟩
  obtain ⟨ht1, hall1⟩ := isValidQuoteEvent_spec stod e1 hv1
  have hm1 : m1 ∈ e1.messageList := by rw [hms]; exact List.mem_cons_self m1 rest
  obtain ⟨hq1, hb1, ha1⟩ := hall1 m1 hm1
  -- the first message of the first event places the order
  have hfirst := processDataMessage_first_order stod e1.now (MyEventHandler.fresh false t0) m1
    hq1 hb1 ha1 rfl rfl
  have hw : wrapInt32 ((0 : Int) + 1) = 1 := by decide
  have hoc : (processDataMessage stod e1.now (MyEventHandler.fresh false t0) m1).orderCount = 1 := by
    rw [hfirst]
    simp only [placeTestOrder, MyEventHandler.fresh]
    exact hw
  have hlast :
      (processDataMessage stod e1.now (MyEventHandler.fresh false t0) m1).lastOrderTime = e1.now := by
    rw [hfirst]
  have hlen : (processDataMessage stod e1.now (MyEventHandler.fresh false t0) m1).sent.length = 1 := by
    rw [hfirst]
    simp [placeTestOrder, MyEventHandler.fresh]
  have hplaced : placedOrder (MyEventHandler.fresh false t0)
      (processDataMessage stod e1.now (MyEventHandler.fresh false t0) m1) := by
    unfold placedOrder
    rw [hlen]
    rfl
  -- the other messages of the first event place nothing
  have hrest := quoteMessages_within_interval stod e1.now rest
    (processDataMessage stod e1.now (MyEventHandler.fresh false t0) m1)
    (fun m hm => (hall1 m (by rw [hms]; exact List.mem_cons_of_mem m1 hm)).1)
    (by rw [hoc]; decide) (by rw [hlast]; omega)
  have hA : processEvent stod (MyEventHandler.fresh false t0) e1 =
      rest.foldl (processDataMessage stod e1.now)
        (processDataMessage stod e1.now (MyEventHandler.fresh false t0) m1) := by
    unfold processEvent
    rw [ht1, hms]
    rfl
  have hpA : placementsInEvent stod (MyEventHandler.fresh false t0) e1 = [e1.now] := by
    unfold placementsInEvent
    rw [if_pos ht1, hms]
    unfold placementsInMessages
    rw [if_pos hplaced, hrest.2]
    rfl
  obtain ⟨a1, a2, a3, a4, a5⟩ := hrest.1
  rw [← hA] at a1 a2 a3 a4 a5
  -- the second event places nothing
  have hB := processEvent_quotes_within_interval stod
    (processEvent stod (MyEventHandler.fresh false t0) e1) e2 hv2
    (by rw [a1, hoc]; decide) (by rw [a2, hlast]; exact h12)
  obtain ⟨b1, b2, b3, b4, b5⟩ := hB.1
  -- the third event places nothing
  have hC := processEvent_quotes_within_interval stod
    (processEvent stod (processEvent stod (MyEventHandler.fresh false t0) e1) e2) e3 hv3
    (by rw [b1, a1, hoc]; decide) (by rw [b2, a2, hlast]; exact h13)
  obtain ⟨c1, c2, c3, c4, c5⟩ := hC.1
  refine ⟨hlen, a4, ?_, ?_, ?_, ?_⟩
  · show (processEvent stod (processEvent stod (MyEventHandler.fresh false t0) e1) e2).sent = _
    exact b4
  · show (processEvent stod (processEvent stod
      (processEvent stod (MyEventHandler.fresh false t0) e1) e2) e3).sent = _
    rw [c4, b4]
  · show (processEvent stod (processEvent stod
      (processEvent stod (MyEventHandler.fresh false t0) e1) e2) e3).orderCount = 1
    rw [c1, b1, a1, hoc]
  · unfold placementTimes placementTimes placementTimes placementTimes
    rw [hpA, hB.2, hC.2]
    rfl

/-- Witness for C3: one event with three quote messages, then two more events,
all within three microseconds. -/
theorem placements_spaced_witness :
    List.Pairwise (fun a b => a + orderInterval ≤ b)
      (placementTimes sampleStod (MyEventHandler.fresh false 0)
        [sampleQuoteEvent 1000 3, sampleQuoteEvent 2000 1, sampleQuoteEvent 3000 1]) ∧
    (run sampleStod (MyEventHandler.fresh false 0)
      [sampleQuoteEvent 1000 3, sampleQuoteEvent 2000 1, sampleQuoteEvent 3000 1]).orderCount = 1 ∧
    placementTimes sampleStod (MyEventHandler.fresh false 0)
      [sampleQuoteEvent 1000 3, sampleQuoteEvent 2000 1, sampleQuoteEvent 3000 1] = [1000] :=
  have w := placements_spaced sampleStod false 0
    [sampleQuoteEvent 1000 3, sampleQuoteEvent 2000 1, sampleQuoteEvent 3000 1]
    (sampleQuoteEvent 1000 3) (sampleQuoteEvent 2000 1) (sampleQuoteEvent 3000 1)
    sampleQuoteMessage (List.replicate 2 sampleQuoteMessage)
    (by decide) (by decide) (by decide) rfl (by decide) (by decide)
  ⟨w.1, w.2.2.2.2.2.1, w.2.2.2.2.2.2⟩

/-- Counterexample to C3 as stated: a fresh handler constructed in
market-data-only mode receives three market data events with valid bid and ask
within three microseconds and places no order at all. -/
theorem placements_spaced_counterexample :
    isValidQuoteEvent sampleStod (sampleQuoteEvent 1000 1) = true ∧
    isValidQuoteEvent sampleStod (sampleQuoteEvent 2000 1) = true ∧
    isValidQuoteEvent sampleStod (sampleQuoteEvent 3000 1) = true ∧
    (run sampleStod (MyEventHandler.fresh true 0)
      [sampleQuoteEvent 1000 1, sampleQuoteEvent 2000 1, sampleQuoteEvent 3000 1]).sent.length = 0 ∧
    ¬ (run sampleStod (MyEventHandler.fresh true 0)
      [sampleQuoteEvent 1000 1, sampleQuoteEvent 2000 1, sampleQuoteEvent 3000 1]).orderCount = 1 := by
  decide

/-- C4: once `processEvent` has handled a `SUBSCRIPTION_STATUS` event with a
subscription failure message, the event itself has changed nothing but the
mode flag, and after every sequence of later events the flag is still set, no
order has been placed (`orderCount` and the requests sent are the same) and
the registry has not grown: each of its entries was there before, and it has
no more entries than before. -/
theorem downgrade_permanent (stod : String → Option Float) (h : MyEventHandler) (e : Event)
    (es : List Event) (ht : e.type = EventType.SUBSCRIPTION_STATUS)
    (hf : ∃ m ∈ e.messageList,
      m.type = MessageType.SUBSCRIPTION_FAILURE_DUE_TO_CONNECTION_FAILURE) :
    processEvent stod h e = { h with marketDataOnly := true } ∧
    (run stod (processEvent stod h e) es).marketDataOnly = true ∧
    (run stod (processEvent stod h e) es).orderCount = h.orderCount ∧
    (run stod (processEvent stod h e) es).sent = h.sent ∧
    (∀ id t, (run stod (processEvent stod h e) es).orderTimestamps.find id = some t →
      h.orderTimestamps.find id = some t) ∧
    (run stod (processEvent stod h e) es).orderTimestamps.length ≤ h.orderTimestamps.length := by
  have hstep : processEvent stod h e = { h with marketDataOnly := true } := by
    unfold processEvent
    rw [ht]
    rcases processStatusMessages_cases h e.messageList with ⟨_, hall⟩ | ⟨he, _⟩
    · obtain ⟨m, hm, hty⟩ := hf
      exact absurd hty (hall m hm)
    · exact he
  have hd : downgraded h (processEvent stod h e) := by
    rw [hstep]
    exact ⟨rfl, rfl, rfl, rfl, registryWithin_refl h⟩
  obtain ⟨r1, r2, r3, _, r5⟩ := run_downgraded stod h _ es hd
  exact ⟨hstep, r1, r2, r3, r5.1, r5.2⟩

/-- Witness for C4: a handler in trading mode receives the failure event and
then two quote events twenty seconds apart, and sends nothing. -/
theorem downgrade_permanent_witness :
    (run sampleStod (processEvent sampleStod (MyEventHandler.fresh false 0) sampleFailureEvent)
      [sampleQuoteEvent 1000 1, sampleQuoteEvent 20000001000 1]).marketDataOnly = true ∧
    (run sampleStod (processEvent sampleStod (MyEventHandler.fresh false 0) sampleFailureEvent)
      [sampleQuoteEvent 1000 1, sampleQuoteEvent 20000001000 1]).sent =
        (MyEventHandler.fresh false 0).sent :=
  have w := downgrade_permanent sampleStod (MyEventHandler.fresh false 0) sampleFailureEvent
    [sampleQuoteEvent 1000 1, sampleQuoteEvent 20000001000 1] rfl
    ⟨_, List.mem_cons_of_mem _ (List.mem_cons_self _ _), rfl⟩
  ⟨w.2.1, w.2.2.2.1⟩

/-! ## The latency computer -/

/-- C5: for every order response element whose `CLIENT_ORDER_ID` matches a
pending order, exactly one sample is appended.  When the whole seconds of the
exchange timestamp since the epoch exceed 1000000000 the sample is the
exchange timestamp minus the send time, in microseconds; otherwise it is the
receipt time minus the send time, in microseconds.  In both cases the pending
entry is removed, and nothing else in the state changes. -/
theorem response_sample (m : Message) (h : MyEventHandler) (el : Element) (id : String)
    (sentAt : Int) (hid : el.find "CLIENT_ORDER_ID" = some id)
    (hp : h.orderTimestamps.find id = some sentAt) :
    (1000000000 < toSeconds m.time →
      (processResponseElement m h el).latencies =
        h.latencies ++ [toMicroseconds (m.time - sentAt)]) ∧
    (¬ 1000000000 < toSeconds m.time →
      (processResponseElement m h el).latencies =
        h.latencies ++ [toMicroseconds (m.timeReceived - sentAt)]) ∧
    (processResponseElement m h el).latencies.length = h.latencies.length + 1 ∧
    (processResponseElement m h el).orderTimestamps = h.orderTimestamps.erase id ∧
    (processResponseElement m h el).orderTimestamps.find id = none ∧
    sameControl h (processResponseElement m h el) := by
  have hc := processResponseElement_control m h el
  have hval : hasValidServerTime m.time = true ↔ 1000000000 < toSeconds m.time := by
    unfold hasValidServerTime
    simp
  by_cases hv : 1000000000 < toSeconds m.time
  · have hstep : processResponseElement m h el =
        { h with
          latencies := h.latencies ++ [toMicroseconds (m.time - sentAt)]
          orderTimestamps := h.orderTimestamps.erase id } := by
      unfold processResponseElement
      simp only [hid, hp]
      rw [if_pos (hval.mpr hv)]
    rw [hstep] at hc ⊢
    exact ⟨fun _ => rfl, fun hn => absurd hv hn, by simp, rfl,
      Registry.find_erase_self _ _, hc⟩
  · have hstep : processResponseElement m h el =
        { h with
          latencies := h.latencies ++ [toMicroseconds (m.timeReceived - sentAt)]
          orderTimestamps := h.orderTimestamps.erase id } := by
      unfold processResponseElement
      simp only [hid, hp]
      rw [if_neg (fun hx => hv (hval.mp hx))]
    rw [hstep] at hc ⊢
    exact ⟨fun hn => absurd hn hv, fun _ => rfl, by simp, rfl,
      Registry.find_erase_self _ _, hc⟩

/-- Witness for C5: a response whose exchange timestamp is the epoch records
the round trip of 800 microseconds. -/
theorem response_sample_witness :
    (processResponseElement (sampleConfirmation MessageType.CREATE_ORDER 0) samplePendingHandler
      [("CLIENT_ORDER_ID", "ord1"), ("STATUS", "live")]).latencies = [800] ∧
    (processResponseElement (sampleConfirmation MessageType.CREATE_ORDER 0) samplePendingHandler
      [("CLIENT_ORDER_ID", "ord1"), ("STATUS", "live")]).orderTimestamps.find "ord1" = none :=
  have w := response_sample (sampleConfirmation MessageType.CREATE_ORDER 0) samplePendingHandler
    [("CLIENT_ORDER_ID", "ord1"), ("STATUS", "live")] "ord1" 1700000000000000000
    (by decide) (by decide)
  ⟨(w.2.1 (by decide)).trans (by decide), w.2.2.2.2.1⟩

/-- C6, the code at the failing input: an order update for the pending order
`ord1` whose exchange timestamp is the epoch, received 800 microseconds after
the order was sent.  The sample recorded is the exchange timestamp minus the
send time, `-1700000000000000` microseconds, and not the round trip of 800. -/
theorem orderUpdate_epoch_timestamp_sample :
    (processEvent sampleStod samplePendingHandler
      { type := EventType.SUBSCRIPTION_DATA
        messageList :=
          [sampleConfirmation MessageType.EXECUTION_MANAGEMENT_EVENTS_ORDER_UPDATE 0]
        now := 1700000000000800000 }).latencies = [-1700000000000000] ∧
    hasValidServerTime 0 = false ∧
    toMicroseconds (1700000000000800000 - 1700000000000000000) = 800 := by
  decide

/-- C7: for every order update element whose `CLIENT_ORDER_ID` matches a
pending order sent at `sentAt`, and whose message carries a valid exchange
timestamp, exactly one sample is appended, the exchange timestamp minus
`sentAt` in microseconds; that id is removed from the registry, every other
registry entry is unchanged, and so is the rest of the state. -/
theorem orderUpdate_sample (m : Message) (h : MyEventHandler) (el : Element) (id : String)
    (sentAt : Int) (hid : el.find "CLIENT_ORDER_ID" = some id)
    (hp : h.orderTimestamps.find id = some sentAt)
    (_hv : hasValidServerTime m.time = true) :
    (processOrderUpdateElement m h el).latencies =
      h.latencies ++ [toMicroseconds (m.time - sentAt)] ∧
    (processOrderUpdateElement m h el).orderTimestamps.find id = none ∧
    (∀ k, k ≠ id →
      (processOrderUpdateElement m h el).orderTimestamps.find k = h.orderTimestamps.find k) ∧
    sameControl h (processOrderUpdateElement m h el) := by
  have hc := processOrderUpdateElement_control m h el
  have hg : el.getValue "CLIENT_ORDER_ID" = id := by
    unfold Element.getValue
    rw [hid]
  have hstep : processOrderUpdateElement m h el =
      { h with
        latencies := h.latencies ++ [toMicroseconds (m.time - sentAt)]
        orderTimestamps := h.orderTimestamps.erase id } := by
    unfold processOrderUpdateElement
    simp only [hg, hp]
  rw [hstep] at hc ⊢
  exact ⟨rfl, Registry.find_erase_self _ _,
    fun k hk => Registry.find_erase_of_ne _ _ _ hk, hc⟩

/-- Witness for C7: the pending order `ord1`, an update with exchange
timestamp 500 microseconds and local receipt 800 microseconds after the send
time: the sample recorded is 500 and `ord1` is gone. -/
theorem orderUpdate_sample_witness :
    (processOrderUpdateElement
      (sampleConfirmation MessageType.EXECUTION_MANAGEMENT_EVENTS_ORDER_UPDATE
        1700000000000500000)
      samplePendingHandler [("CLIENT_ORDER_ID", "ord1"), ("STATUS", "live")]).latencies = [500] ∧
    (processOrderUpdateElement
      (sampleConfirmation MessageType.EXECUTION_MANAGEMENT_EVENTS_ORDER_UPDATE
        1700000000000500000)
      samplePendingHandler
      [("CLIENT_ORDER_ID", "ord1"), ("STATUS", "live")]).orderTimestamps.find "ord1" = none :=
  have w := orderUpdate_sample
    (sampleConfirmation MessageType.EXECUTION_MANAGEMENT_EVENTS_ORDER_UPDATE 1700000000000500000)
    samplePendingHandler [("CLIENT_ORDER_ID", "ord1"), ("STATUS", "live")] "ord1"
    1700000000000000000 (by decide) (by decide) (by decide)
  ⟨w.1.trans (by decide), w.2.1⟩

/-! ## Consumption of registry entries -/

theorem confirmElement_control (p : ConfirmationPath) (m : Message) (h : MyEventHandler)
    (el : Element) : sameControl h (confirmElement p m h el) := by
  cases p
  · exact processOrderUpdateElement_control m h el
  · exact processOrderChannelElement_control m h el
  · exact processResponseElement_control m h el

theorem confirmElement_of_find (p : ConfirmationPath) (m : Message) (h : MyEventHandler)
    (el : Element) (id : String) (t : Int) (hid : confirmationId p el = some id)
    (hp : h.orderTimestamps.find id = some t) :
    (confirmElement p m h el).latencies.length = h.latencies.length + 1 ∧
    (confirmElement p m h el).orderTimestamps = h.orderTimestamps.erase id := by
  cases p
  · simp only [confirmationId, Option.some.injEq] at hid
    simp only [confirmElement, processOrderUpdateElement, hid, hp]
    simp
  · simp only [confirmationId] at hid
    simp only [confirmElement, processOrderChannelElement, hid, hp]
    simp
  · simp only [confirmationId] at hid
    simp only [confirmElement, processResponseElement, hid, hp]
    split <;> exact ⟨by simp, rfl⟩

theorem confirmElement_of_not_found (p : ConfirmationPath) (m : Message) (h : MyEventHandler)
    (el : Element) (hn : ∀ id, confirmationId p el = some id → h.orderTimestamps.find id = none) :
    confirmElement p m h el = h := by
  cases p
  · have := hn _ rfl
    simp only [confirmElement, processOrderUpdateElement, this]
  · simp only [confirmElement, processOrderChannelElement]
    cases hid : orderChannelClientOrderId el with
    | none => rfl
    | some id =>
      have := hn id hid
      simp only [this]
  · simp only [confirmElement, processResponseElement]
    cases hid : el.find "CLIENT_ORDER_ID" with
    | none => rfl
    | some id =>
      have := hn id hid
      simp only [this]

theorem quiet_refl (h : MyEventHandler) : quiet h h :=
  ⟨le_refl _, fun _ => registryWithin_refl h⟩

theorem quiet_trans {h1 h2 h3 : MyEventHandler} (a : quiet h1 h2) (b : quiet h2 h3) :
    quiet h1 h3 := by
  refine ⟨le_trans a.1 b.1, ?_⟩
  intro he
  have h12 : h2.sent.length = h1.sent.length := by
    have := a.1
    have := b.1
    omega
  exact registryWithin_trans (a.2 h12) (b.2 (by omega))

theorem quiet_of_control {h1 h2 : MyEventHandler} (c : sameControl h1 h2)
    (w : registryWithin h1 h2) : quiet h1 h2 := by
  refine ⟨?_, fun _ => w⟩
  rw [c.2.2.2.2]

theorem processMarketDataMessage_quiet (stod : String → Option Float) (now : Int)
    (h : MyEventHandler) (m : Message) : quiet h (processMarketDataMessage stod now h m) := by
  unfold processMarketDataMessage
  dsimp only
  split
  · split
    · split
      · refine ⟨?_, ?_⟩
        · simp [placeTestOrder]
        · intro he
          simp [placeTestOrder] at he
      · exact ⟨le_refl _, fun _ => registryWithin_of_eq rfl⟩
    · exact ⟨le_refl _, fun _ => registryWithin_of_eq rfl⟩
  · exact ⟨le_refl _, fun _ => registryWithin_of_eq rfl⟩

theorem processDataMessage_quiet (stod : String → Option Float) (now : Int)
    (h : MyEventHandler) (m : Message) : quiet h (processDataMessage stod now h m) := by
  unfold processDataMessage
  split
  · exact quiet_of_control (foldl_control _ (processOrderUpdateElement_control m) _ h)
      (foldl_within _ (processOrderUpdateElement_within m) _ h)
  · split
    · exact quiet_of_control (foldl_control _ (processOrderChannelElement_control m) _ h)
        (foldl_within _ (processOrderChannelElement_within m) _ h)
    · exact processMarketDataMessage_quiet stod now h m

theorem foldl_quiet {β : Type} (f : MyEventHandler → β → MyEventHandler)
    (hf : ∀ a b, quiet a (f a b)) (l : List β) (h : MyEventHandler) :
    quiet h (l.foldl f h) :=
  foldl_preserves (fun x => quiet h x) f
    (fun a b ha => quiet_trans ha (hf a b)) l h (quiet_refl h)

theorem processEvent_quiet (stod : String → Option Float) (h : MyEventHandler) (e : Event) :
    quiet h (processEvent stod h e) := by
  unfold processEvent
  split
  · rcases processStatusMessages_cases h e.messageList with ⟨he, _⟩ | ⟨he, _⟩
    · rw [he]; exact quiet_refl h
    · rw [he]; exact ⟨le_refl _, fun _ => registryWithin_of_eq rfl⟩
  · exact foldl_quiet _ (processDataMessage_quiet stod e.now) _ h
  · exact quiet_of_control (foldl_control _ processResponseMessage_control _ h)
      (foldl_within _ processResponseMessage_within _ h)
  · exact quiet_refl h

theorem run_quiet (stod : String → Option Float) (h : MyEventHandler) (es : List Event) :
    quiet h (run stod h es) :=
  foldl_quiet _ (processEvent_quiet stod) es h

/-- C8: on each confirmation path, a confirmation that finds its id in the
registry appends one sample and removes the entry.  After any further events
during which no order is placed, a second confirmation bearing the same id, on
any path, finds nothing: it appends no sample and leaves the registry, and the
whole state, unchanged. -/
theorem consumption_idempotent (stod : String → Option Float) (p1 p2 : ConfirmationPath)
    (m1 m2 : Message) (h : MyEventHandler) (el1 el2 : Element) (id : String) (t : Int)
    (between : List Event)
    (hid1 : confirmationId p1 el1 = some id) (hid2 : confirmationId p2 el2 = some id)
    (hp : h.orderTimestamps.find id = some t)
    (hno : (run stod (confirmElement p1 m1 h el1) between).sent.length =
      (confirmElement p1 m1 h el1).sent.length) :
    (confirmElement p1 m1 h el1).latencies.length = h.latencies.length + 1 ∧
    (confirmElement p1 m1 h el1).orderTimestamps.find id = none ∧
    (run stod (confirmElement p1 m1 h el1) between).orderTimestamps.find id = none ∧
    confirmElement p2 m2 (run stod (confirmElement p1 m1 h el1) between) el2 =
      run stod (confirmElement p1 m1 h el1) between := by
  obtain ⟨hlen, hreg⟩ := confirmElement_of_find p1 m1 h el1 id t hid1 hp
  have hgone : (confirmElement p1 m1 h el1).orderTimestamps.find id = none := by
    rw [hreg]
    exact Registry.find_erase_self _ _
  have hq := (run_quiet stod (confirmElement p1 m1 h el1) between).2 hno
  have hlater : (run stod (confirmElement p1 m1 h el1) between).orderTimestamps.find id = none := by
    cases hf : (run stod (confirmElement p1 m1 h el1) between).orderTimestamps.find id with
    | none => rfl
    | some v =>
      have := hq.1 id v hf
      rw [hgone] at this
      exact absurd this (by simp)
  refine ⟨hlen, hgone, hlater, ?_⟩
  apply confirmElement_of_not_found
  intro id2 hid
  rw [hid2] at hid
  cases hid
  exact hlater

/-- Witness for C8: `ord1` is confirmed by an order update; a quote event
follows within the interval, so nothing is placed; the order response for
`ord1` then finds nothing. -/
theorem consumption_idempotent_witness :
    (confirmElement ConfirmationPath.orderUpdate
      (sampleConfirmation MessageType.EXECUTION_MANAGEMENT_EVENTS_ORDER_UPDATE
        1700000000000500000)
      samplePendingHandler [("CLIENT_ORDER_ID", "ord1")]).latencies.length = 1 ∧
    confirmElement ConfirmationPath.response
      (sampleConfirmation MessageType.CREATE_ORDER 1700000000000600000)
      (run sampleStod
        (confirmElement ConfirmationPath.orderUpdate
          (sampleConfirmation MessageType.EXECUTION_MANAGEMENT_EVENTS_ORDER_UPDATE
            1700000000000500000)
          samplePendingHandler [("CLIENT_ORDER_ID", "ord1")])
        [sampleQuoteEvent 1700000000000900000 1])
      [("CLIENT_ORDER_ID", "ord1")] =
    run sampleStod
      (confirmElement ConfirmationPath.orderUpdate
        (sampleConfirmation MessageType.EXECUTION_MANAGEMENT_EVENTS_ORDER_UPDATE
          1700000000000500000)
        samplePendingHandler [("CLIENT_ORDER_ID", "ord1")])
      [sampleQuoteEvent 1700000000000900000 1] :=
  have w := consumption_idempotent sampleStod ConfirmationPath.orderUpdate
    ConfirmationPath.response
    (sampleConfirmation MessageType.EXECUTION_MANAGEMENT_EVENTS_ORDER_UPDATE 1700000000000500000)
    (sampleConfirmation MessageType.CREATE_ORDER 1700000000000600000)
    samplePendingHandler [("CLIENT_ORDER_ID", "ord1")] [("CLIENT_ORDER_ID", "ord1")] "ord1"
    1700000000000000000 [sampleQuoteEvent 1700000000000900000 1]
    (by decide) (by decide) (by decide) (by decide)
  ⟨w.1, w.2.2.2⟩

theorem generateClientOrderId_ne_empty (now : Int) : generateClientOrderId now ≠ "" := by
  unfold generateClientOrderId
  intro he
  have hl := congrArg String.length he
  rw [String.length_append] at hl
  have h3 : "ord".length = 3 := by decide
  have h0 : "".length = 0 := by decide
  omega

theorem noEmptyId_of_within {h1 h2 : MyEventHandler} (a : noEmptyId h1)
    (w : registryWithin h1 h2) : noEmptyId h2 := by
  unfold noEmptyId at *
  cases hf : h2.orderTimestamps.find "" with
  | none => rfl
  | some v =>
    have := w.1 "" v hf
    rw [a] at this
    exact absurd this (by simp)

theorem processMarketDataMessage_noEmptyId (stod : String → Option Float) (now : Int)
    (h : MyEventHandler) (m : Message) (a : noEmptyId h) :
    noEmptyId (processMarketDataMessage stod now h m) := by
  unfold processMarketDataMessage
  dsimp only
  split
  · split
    · split
      · unfold noEmptyId placeTestOrder
        dsimp only
        rw [Registry.find_assign_of_ne _ _ _ _
          (fun he => generateClientOrderId_ne_empty m.placeClock he.symm)]
        exact a
      · exact a
    · exact a
  · exact a

theorem processEvent_noEmptyId (stod : String → Option Float) (h : MyEventHandler) (e : Event)
    (a : noEmptyId h) : noEmptyId (processEvent stod h e) := by
  unfold processEvent
  split
  · rcases processStatusMessages_cases h e.messageList with ⟨he, _⟩ | ⟨he, _⟩
    · rw [he]; exact a
    · rw [he]; exact a
  · refine foldl_preserves noEmptyId _ ?_ _ h a
    intro x m hx
    unfold processDataMessage
    split
    · exact noEmptyId_of_within hx (foldl_within _ (processOrderUpdateElement_within m) _ x)
    · split
      · exact noEmptyId_of_within hx (foldl_within _ (processOrderChannelElement_within m) _ x)
      · exact processMarketDataMessage_noEmptyId stod e.now x m hx
  · exact noEmptyId_of_within a (foldl_within _ processResponseMessage_within _ h)
  · exact a

/-- In every state reached from a fresh handler the registry has no entry
under the empty string: an order update element without a `CLIENT_ORDER_ID`
field, whose lookup key is the empty string, never matches. -/
theorem run_fresh_noEmptyId (stod : String → Option Float) (marketDataOnly : Bool) (t0 : Int)
    (es : List Event) : noEmptyId (run stod (MyEventHandler.fresh marketDataOnly t0) es) :=
  foldl_preserves noEmptyId _ (fun x e hx => processEvent_noEmptyId stod x e hx) es _ rfl

theorem foldl_fixed {α β : Type} (f : α → β → α) (a : α) :
    ∀ (l : List β), (∀ b ∈ l, f a b = a) → l.foldl f a = a := by
  intro l
  induction l with
  | nil => intro _; rfl
  | cons b l ih =>
    intro hf
    rw [List.foldl_cons, hf b (List.mem_cons_self b l)]
    exact ih (fun x hx => hf x (List.mem_cons_of_mem b hx))

theorem confirmElements_of_not_found (p : ConfirmationPath) (m : Message) (h : MyEventHandler)
    (els : List Element)
    (hn : ∀ id ∈ els.filterMap (confirmationId p), h.orderTimestamps.find id = none) :
    els.foldl (confirmElement p m) h = h := by
  apply foldl_fixed
  intro el hel
  apply confirmElement_of_not_found
  intro id hid
  exact hn id (List.mem_filterMap.mpr ⟨el, hel, hid⟩)

theorem processDataMessage_of_not_found (stod : String → Option Float) (now : Int)
    (h : MyEventHandler) (m : Message) (hm : isMarketDataMessage m = false)
    (hn : ∀ id ∈ dataMessageIds m, h.orderTimestamps.find id = none) :
    processDataMessage stod now h m = h := by
  unfold processDataMessage
  unfold dataMessageIds at hn
  by_cases hty : m.type = MessageType.EXECUTION_MANAGEMENT_EVENTS_ORDER_UPDATE
  · rw [if_pos hty] at hn ⊢
    exact confirmElements_of_not_found ConfirmationPath.orderUpdate m h _ hn
  · rw [if_neg hty] at hn ⊢
    by_cases hch : isOrderChannel m = true
    · rw [if_pos hch] at hn ⊢
      exact confirmElements_of_not_found ConfirmationPath.orderChannel m h _ hn
    · exfalso
      unfold isMarketDataMessage at hm
      simp [hty, hch] at hm

/-- C9: for every confirmation event (a response event, or a subscription
data event made of order updates and order channel data) none of whose ids is
present in the registry, `processEvent` returns the state it was given: the
samples, the registry, `orderCount`, `messageCount`, `lastOrderTime`, the mode
flag and the requests sent are all unchanged.  The ids of an event are the
values that the handler binds to `clientOrderId`; for an order update element
without the field that value is the empty string, which no registry reached
from a fresh handler holds (`run_fresh_noEmptyId`). -/
theorem orphan_confirmation_noop (stod : String → Option Float) (h : MyEventHandler)
    (e : Event) (hc : isConfirmationEvent e = true)
    (hn : ∀ id ∈ eventIds e, h.orderTimestamps.find id = none) :
    processEvent stod h e = h := by
  unfold processEvent
  unfold isConfirmationEvent at hc
  unfold eventIds at hn
  cases hty : e.type
  · simp [hty] at hc
  · rw [hty] at hc hn
    dsimp only at hc hn ⊢
    apply foldl_fixed
    intro m hm
    apply processDataMessage_of_not_found
    · have := List.all_eq_true.mp hc m hm
      simpa using this
    · intro id hid
      exact hn id (List.mem_flatMap.mpr ⟨m, hm, hid⟩)
  · rw [hty] at hn
    dsimp only at hn ⊢
    apply foldl_fixed
    intro m hm
    exact confirmElements_of_not_found ConfirmationPath.response m h _
      (fun id hid => hn id (List.mem_flatMap.mpr ⟨m, hm, hid⟩))
  · simp [hty] at hc

/-- Witness for C9: an order update for the unknown id `ord2` leaves the
latencies of the sample handler empty and its pending order in place. -/
theorem orphan_confirmation_noop_witness :
    (processEvent sampleStod samplePendingHandler
      { type := EventType.SUBSCRIPTION_DATA
        messageList :=
          [{ sampleConfirmation MessageType.EXECUTION_MANAGEMENT_EVENTS_ORDER_UPDATE
               1700000000000500000 with
             elementList := [[("CLIENT_ORDER_ID", "ord2")]] }]
        now := 1700000000000800000 }) = samplePendingHandler :=
  orphan_confirmation_noop sampleStod samplePendingHandler _ (by decide) (by decide)

/-! ## Registration -/

/-- C10, as amended: registering an id that is already present signals no
conflict and overwrites the entry.  For every registry that maps the id to `t`
and every placement that generates the same id and reads the send time
`sendClock`, the registry maps the id to `sendClock` afterwards, every other
entry is unchanged, and the order is counted and sent as usual. -/
theorem registration_overwrites (h : MyEventHandler) (bestBid : Float)
    (placeClock sendClock t : Int)
    (_hp : h.orderTimestamps.find (generateClientOrderId placeClock) = some t) :
    (placeTestOrder h bestBid placeClock sendClock).orderTimestamps.find
      (generateClientOrderId placeClock) = some sendClock ∧
    (∀ k, k ≠ generateClientOrderId placeClock →
      (placeTestOrder h bestBid placeClock sendClock).orderTimestamps.find k =
        h.orderTimestamps.find k) ∧
    (placeTestOrder h bestBid placeClock sendClock).sent.length = h.sent.length + 1 ∧
    (placeTestOrder h bestBid placeClock sendClock).orderCount = wrapInt32 (h.orderCount + 1) := by
  refine ⟨?_, ?_, placeTestOrder_sent_length h bestBid placeClock sendClock, rfl⟩
  · exact Registry.find_assign_self _ _ _
  · intro k hk
    exact Registry.find_assign_of_ne _ _ _ _ hk

/-- Witness for C10: the id `ord123` is pending with send time
`1700000000123400000` and is generated again 100000 seconds later. -/
theorem registration_overwrites_witness :
    (placeTestOrder
      (run sampleStod (MyEventHandler.fresh false 0)
        [sampleQuoteEventAt 1700000000122000000 1700000000123000000 1700000000123400000])
      50000.0 1700100000123000000 1700100000123400000).orderTimestamps.find
      (generateClientOrderId 1700100000123000000) = some 1700100000123400000 :=
  (registration_overwrites
    (run sampleStod (MyEventHandler.fresh false 0)
      [sampleQuoteEventAt 1700000000122000000 1700000000123000000 1700000000123400000])
    50000.0 1700100000123000000 1700100000123400000 1700000000123400000 (by decide)).1

/-- Counterexample to C10 as stated: a fresh handler places an order with id
`ord123`, sent at `1700000000123400000`; 100000 seconds later, with no
confirmation in between, the next placement generates `ord123` again.  The
registry then maps `ord123` to the new send time, not to the old one, and both
orders have been sent. -/
theorem registration_conflict_counterexample :
    (run sampleStod (MyEventHandler.fresh false 0)
      [sampleQuoteEventAt 1700000000122000000 1700000000123000000
        1700000000123400000]).orderTimestamps.find "ord123" = some 1700000000123400000 ∧
    generateClientOrderId 1700100000123000000 = "ord123" ∧
    (run sampleStod (MyEventHandler.fresh false 0)
      [sampleQuoteEventAt 1700000000122000000 1700000000123000000 1700000000123400000,
       sampleQuoteEventAt 1700100000122000000 1700100000123000000
        1700100000123400000]).orderTimestamps.find "ord123" = some 1700100000123400000 ∧
    ¬ (run sampleStod (MyEventHandler.fresh false 0)
      [sampleQuoteEventAt 1700000000122000000 1700000000123000000 1700000000123400000,
       sampleQuoteEventAt 1700100000122000000 1700100000123000000
        1700100000123400000]).orderTimestamps.find "ord123" = some 1700000000123400000 ∧
    (run sampleStod (MyEventHandler.fresh false 0)
      [sampleQuoteEventAt 1700000000122000000 1700000000123000000 1700000000123400000,
       sampleQuoteEventAt 1700100000122000000 1700100000123000000
        1700100000123400000]).sent.length = 2 := by
  decide

/-! ## Samples -/

theorem toMicroseconds_nonneg (d : Int) (hd : 0 ≤ d) : 0 ≤ toMicroseconds d :=
  Int.tdiv_nonneg hd (by norm_num)

theorem confirmElement_sample (p : ConfirmationPath) (m : Message) (h : MyEventHandler)
    (el : Element) (id : String) (sentAt : Int) (hid : confirmationId p el = some id)
    (hp : h.orderTimestamps.find id = some sentAt) :
    (confirmElement p m h el).latencies =
      h.latencies ++ [toMicroseconds (measuredAgainst p m - sentAt)] := by
  cases p
  · simp only [confirmationId, Option.some.injEq] at hid
    simp only [confirmElement, processOrderUpdateElement, measuredAgainst, hid, hp]
  · simp only [confirmationId] at hid
    simp only [confirmElement, processOrderChannelElement, measuredAgainst, hid, hp]
  · simp only [confirmationId] at hid
    simp only [confirmElement, processResponseElement, measuredAgainst, hid, hp]
    split <;> rfl

/-- C15: on every confirmation path, the sample appended for a pending order
is the difference between the timestamp the path measures against and the
send time, truncated to microseconds; when the send time is not later than
that timestamp the sample is not negative. -/
theorem sample_nonneg (p : ConfirmationPath) (m : Message) (h : MyEventHandler)
    (el : Element) (id : String) (sentAt : Int) (hid : confirmationId p el = some id)
    (hp : h.orderTimestamps.find id = some sentAt) (hle : sentAt ≤ measuredAgainst p m) :
    (confirmElement p m h el).latencies =
      h.latencies ++ [toMicroseconds (measuredAgainst p m - sentAt)] ∧
    0 ≤ toMicroseconds (measuredAgainst p m - sentAt) :=
  ⟨confirmElement_sample p m h el id sentAt hid hp, toMicroseconds_nonneg _ (by omega)⟩

/-- Witness for C15: the response for `ord1` with an epoch exchange timestamp
is measured against the receipt time, 800 microseconds after the send time. -/
theorem sample_nonneg_witness :
    (confirmElement ConfirmationPath.response (sampleConfirmation MessageType.CREATE_ORDER 0)
      samplePendingHandler [("CLIENT_ORDER_ID", "ord1")]).latencies = [800] ∧
    0 ≤ toMicroseconds
      (measuredAgainst ConfirmationPath.response (sampleConfirmation MessageType.CREATE_ORDER 0) -
        1700000000000000000) :=
  have w := sample_nonneg ConfirmationPath.response (sampleConfirmation MessageType.CREATE_ORDER 0)
    samplePendingHandler [("CLIENT_ORDER_ID", "ord1")] "ord1" 1700000000000000000
    (by decide) (by decide) (by decide)
  ⟨w.1.trans (by decide), w.2⟩

/-! ## Identifier lookup -/

/-- The order channel path returns the value of the first field present among
`CLIENT_ORDER_ID`, `clOrdId` and `clientOrderId`, and finds no identifier only
when none of the three is present. -/
theorem orderChannelClientOrderId_first_present (el : Element) :
    (∀ v, el.find "CLIENT_ORDER_ID" = some v → orderChannelClientOrderId el = some v) ∧
    (∀ v, el.find "CLIENT_ORDER_ID" = none → el.find "clOrdId" = some v →
      orderChannelClientOrderId el = some v) ∧
    (∀ v, el.find "CLIENT_ORDER_ID" = none → el.find "clOrdId" = none →
      el.find "clientOrderId" = some v → orderChannelClientOrderId el = some v) ∧
    (orderChannelClientOrderId el = none ↔
      el.find "CLIENT_ORDER_ID" = none ∧ el.find "clOrdId" = none ∧
        el.find "clientOrderId" = none) := by
  unfold orderChannelClientOrderId
  refine ⟨?_, ?_, ?_, ?_⟩
  · intro v hv
    rw [hv]
  · intro v h1 h2
    rw [h1, h2]
  · intro v h1 h2 h3
    rw [h1, h2, h3]
  · cases h1 : el.find "CLIENT_ORDER_ID" with
    | some v => simp
    | none =>
      cases h2 : el.find "clOrdId" with
      | some v => simp
      | none => simp

/-- C14, the code at the failing input: the order `ord1` is pending and a
confirmation element names it in the field `clOrdId` only.  The order channel
path finds the identifier and records a sample.  The response path looks at
`CLIENT_ORDER_ID` alone, finds no identifier and records nothing; the order
update path looks up the empty string and records nothing either; the order
stays pending on both. -/
theorem alias_lookup_by_path :
    orderChannelClientOrderId [("clOrdId", "ord1")] = some "ord1" ∧
    (processOrderChannelElement (sampleConfirmation MessageType.OTHER 0) samplePendingHandler
      [("clOrdId", "ord1")]).latencies = [800] ∧
    confirmationId ConfirmationPath.response [("clOrdId", "ord1")] = none ∧
    (processResponseElement (sampleConfirmation MessageType.CREATE_ORDER 0) samplePendingHandler
      [("clOrdId", "ord1")]).latencies = [] ∧
    (processResponseElement (sampleConfirmation MessageType.CREATE_ORDER 0) samplePendingHandler
      [("clOrdId", "ord1")]).orderTimestamps.find "ord1" = some 1700000000000000000 ∧
    confirmationId ConfirmationPath.orderUpdate [("clOrdId", "ord1")] = some "" ∧
    (processOrderUpdateElement
      (sampleConfirmation MessageType.EXECUTION_MANAGEMENT_EVENTS_ORDER_UPDATE 0)
      samplePendingHandler [("clOrdId", "ord1")]).latencies = [] ∧
    (processOrderUpdateElement
      (sampleConfirmation MessageType.EXECUTION_MANAGEMENT_EVENTS_ORDER_UPDATE 0)
      samplePendingHandler
      [("clOrdId", "ord1")]).orderTimestamps.find "ord1" = some 1700000000000000000 := by
  decide

/-! ## The message counter -/

theorem processDataMessage_messageCount (stod : String → Option Float) (now : Int)
    (h : MyEventHandler) (m : Message) :
    (processDataMessage stod now h m).messageCount =
      if isMarketDataMessage m then wrapInt32 (h.messageCount + 1) else h.messageCount := by
  unfold processDataMessage
  by_cases hty : m.type = MessageType.EXECUTION_MANAGEMENT_EVENTS_ORDER_UPDATE
  · have hm : isMarketDataMessage m = false := by simp [isMarketDataMessage, hty]
    rw [if_pos hty, hm]
    exact (foldl_control _ (processOrderUpdateElement_control m) _ h).2.1
  · rw [if_neg hty]
    by_cases hch : isOrderChannel m = true
    · have hm : isMarketDataMessage m = false := by simp [isMarketDataMessage, hch]
      rw [if_pos hch, hm]
      exact (foldl_control _ (processOrderChannelElement_control m) _ h).2.1
    · have hm : isMarketDataMessage m = true := by simp [isMarketDataMessage, hty, hch]
      rw [if_neg hch, hm]
      unfold processMarketDataMessage
      dsimp only
      split
      · split
        · split <;> rfl
        · rfl
      · rfl

theorem dataMessages_messageCount (stod : String → Option Float) (now : Int) :
    ∀ (ms : List Message) (h : MyEventHandler), -2147483648 ≤ h.messageCount →
      h.messageCount + ((ms.filter isMarketDataMessage).length : Int) < 2147483648 →
      (ms.foldl (processDataMessage stod now) h).messageCount =
        h.messageCount + ((ms.filter isMarketDataMessage).length : Int) := by
  intro ms
  induction ms with
  | nil =>
    intro h _ _
    simp
  | cons m ms ih =>
    intro h hlo hhi
    rw [List.foldl_cons]
    have hstep := processDataMessage_messageCount stod now h m
    by_cases hm : isMarketDataMessage m = true
    · rw [List.filter_cons_of_pos hm, List.length_cons] at hhi ⊢
      rw [if_pos hm] at hstep
      push_cast at hhi ⊢
      have hw : wrapInt32 (h.messageCount + 1) = h.messageCount + 1 :=
        wrapInt32_of_inRange _ (by omega) (by omega)
      rw [hw] at hstep
      rw [ih _ (by rw [hstep]; omega) (by rw [hstep]; omega), hstep]
      omega
    · rw [List.filter_cons_of_neg hm] at hhi ⊢
      rw [if_neg hm] at hstep
      rw [ih _ (by rw [hstep]; exact hlo) (by rw [hstep]; exact hhi), hstep]

theorem processStatusMessages_messageCount (h : MyEventHandler) (ms : List Message) :
    (processStatusMessages h ms).messageCount = h.messageCount := by
  rcases processStatusMessages_cases h ms with ⟨he, _⟩ | ⟨he, _⟩ <;> rw [he]

/-- C16, as amended: the counter grows by one per market data message.  For
every event, as long as the counter stays within the range of a 32-bit `int`,
`processEvent` adds to `messageCount` the number of messages of the event that
take the market data branch: nothing for a subscription status or response
event, nothing for order update and order channel messages; so the counter
does not decrease. -/
theorem messageCount_per_message (stod : String → Option Float) (h : MyEventHandler)
    (e : Event) (hlo : -2147483648 ≤ h.messageCount)
    (hhi : h.messageCount + (marketDataMessageCount e : Int) < 2147483648) :
    (processEvent stod h e).messageCount = h.messageCount + (marketDataMessageCount e : Int) ∧
    h.messageCount ≤ (processEvent stod h e).messageCount ∧
    (e.type ≠ EventType.SUBSCRIPTION_DATA →
      (processEvent stod h e).messageCount = h.messageCount) ∧
    ((∀ m ∈ e.messageList, isMarketDataMessage m = false) →
      (processEvent stod h e).messageCount = h.messageCount) := by
  have hmain : (processEvent stod h e).messageCount =
      h.messageCount + (marketDataMessageCount e : Int) := by
    unfold processEvent
    unfold marketDataMessageCount at hhi ⊢
    cases hty : e.type
    · simp only [Nat.cast_zero, add_zero]
      exact processStatusMessages_messageCount h _
    · rw [hty] at hhi
      exact dataMessages_messageCount stod e.now e.messageList h hlo hhi
    · simp only [Nat.cast_zero, add_zero]
      exact (foldl_control _ processResponseMessage_control _ h).2.1
    · simp
  refine ⟨hmain, by rw [hmain]; omega, ?_, ?_⟩
  · intro hne
    rw [hmain]
    unfold marketDataMessageCount
    cases hty : e.type <;> simp_all
  · intro hall
    rw [hmain]
    unfold marketDataMessageCount
    cases hty : e.type <;> simp
    intro m hm
    simp [hall m hm]

/-- Witness for C16: an event with three quote messages adds three. -/
theorem messageCount_per_message_witness :
    (processEvent sampleStod (MyEventHandler.fresh false 0) (sampleQuoteEvent 1000 3)).messageCount =
      (MyEventHandler.fresh false 0).messageCount + 3 :=
  (messageCount_per_message sampleStod (MyEventHandler.fresh false 0) (sampleQuoteEvent 1000 3)
    (by decide) (by decide)).1

/-- Counterexample to C16 as stated: one market data event that carries two
messages adds two to the counter, not one; and a counter that has reached
`2147483647` wraps to `-2147483648` on the next market data message. -/
theorem messageCount_per_event_counterexample :
    (sampleQuoteEvent 1000 2).type = EventType.SUBSCRIPTION_DATA ∧
    isValidQuoteEvent sampleStod (sampleQuoteEvent 1000 2) = true ∧
    (processEvent sampleStod (MyEventHandler.fresh false 0) (sampleQuoteEvent 1000 2)).messageCount =
      (MyEventHandler.fresh false 0).messageCount + 2 ∧
    (processEvent sampleStod { MyEventHandler.fresh true 0 with messageCount := 2147483647 }
      (sampleQuoteEvent 1000 1)).messageCount = -2147483648 := by
  decide

/-! ## Conservation of orders -/

theorem Registry.length_erase_lt_of_find (r : Registry) (id : String) (t : Int)
    (hf : r.find id = some t) : (r.erase id).length < r.length := by
  unfold Registry.find at hf
  unfold Registry.erase
  induction r with
  | nil => simp at hf
  | cons p r ih =>
    obtain ⟨k, v⟩ := p
    by_cases hk : k = id
    · rw [List.filter_cons_of_neg (by simp [hk])]
      have := List.length_filter_le (fun p : String × Int => p.1 != id) r
      rw [List.length_cons]
      omega
    · rw [List.filter_cons_of_pos (by simp [hk])]
      rw [List.lookup_cons] at hf
      have hne : (id == k) = false := by
        rw [beq_eq_false_iff_ne]
        exact fun h => hk h.symm
      rw [hne] at hf
      have := ih hf
      rw [List.length_cons, List.length_cons]
      omega

theorem Registry.length_assign_le (r : Registry) (id : String) (t : Int) :
    (r.assign id t).length ≤ r.length + 1 := by
  unfold Registry.assign
  rw [List.length_cons]
  have := Registry.length_erase_le r id
  omega

theorem confirmElement_conserved (p : ConfirmationPath) (m : Message) (h : MyEventHandler)
    (el : Element) (a : conserved h) : conserved (confirmElement p m h el) := by
  have hc := confirmElement_control p m h el
  cases hid : confirmationId p el with
  | none =>
    rw [confirmElement_of_not_found p m h el (fun id hx => by rw [hid] at hx; cases hx)]
    exact a
  | some id =>
    cases hf : h.orderTimestamps.find id with
    | none =>
      rw [confirmElement_of_not_found p m h el
        (fun id2 hx => by rw [hid] at hx; cases hx; exact hf)]
      exact a
    | some t =>
      obtain ⟨hlen, hreg⟩ := confirmElement_of_find p m h el id t hid hf
      have hlt := Registry.length_erase_lt_of_find h.orderTimestamps id t hf
      unfold conserved at *
      rw [hlen, hreg, hc.1]
      push_cast
      omega

theorem processMarketDataMessage_conserved (stod : String → Option Float) (now : Int)
    (h : MyEventHandler) (m : Message) (hb : orderCountBounded h) (a : conserved h) :
    conserved (processMarketDataMessage stod now h m) := by
  obtain ⟨h0, h3⟩ := hb
  unfold processMarketDataMessage
  dsimp only
  split
  · split
    · split
      · rename_i hc
        have hlt : h.orderCount < 3 := hc.2
        have hw : wrapInt32 (h.orderCount + 1) = h.orderCount + 1 :=
          wrapInt32_of_inRange _ (by omega) (by omega)
        have hl := Registry.length_assign_le h.orderTimestamps
          (generateClientOrderId m.placeClock) m.sendClock
        unfold conserved at *
        simp only [placeTestOrder, hw]
        omega
      · exact a
    · exact a
  · exact a

theorem processDataMessage_conserved (stod : String → Option Float) (now : Int)
    (h : MyEventHandler) (m : Message) (hb : orderCountBounded h) (a : conserved h) :
    conserved (processDataMessage stod now h m) := by
  unfold processDataMessage
  split
  · exact foldl_preserves conserved _
      (fun x el hx => confirmElement_conserved ConfirmationPath.orderUpdate m x el hx) _ h a
  · split
    · exact foldl_preserves conserved _
        (fun x el hx => confirmElement_conserved ConfirmationPath.orderChannel m x el hx) _ h a
    · exact processMarketDataMessage_conserved stod now h m hb a

theorem processEvent_conserved (stod : String → Option Float) (h : MyEventHandler) (e : Event)
    (hb : orderCountBounded h) (a : conserved h) :
    conserved (processEvent stod h e) := by
  unfold processEvent
  split
  · rcases processStatusMessages_cases h e.messageList with ⟨he, _⟩ | ⟨he, _⟩
    · rw [he]; exact a
    · rw [he]; exact a
  · exact (foldl_preserves (fun x => orderCountBounded x ∧ conserved x) _
      (fun x m hx => ⟨processDataMessage_bounded stod e.now x m hx.1,
        processDataMessage_conserved stod e.now x m hx.1 hx.2⟩) _ h ⟨hb, a⟩).2
  · refine foldl_preserves conserved _ ?_ _ h a
    intro x m hx
    exact foldl_preserves conserved _
      (fun y el hy => confirmElement_conserved ConfirmationPath.response m y el hy) _ x hx
  · exact a

theorem run_conserved (stod : String → Option Float) (h : MyEventHandler) (es : List Event)
    (hb : orderCountBounded h) (a : conserved h) : conserved (run stod h es) :=
  (foldl_preserves (fun x => orderCountBounded x ∧ conserved x) _
    (fun x e hx => ⟨processEvent_bounded stod x e hx.1,
      processEvent_conserved stod x e hx.1 hx.2⟩) es h ⟨hb, a⟩).2

/-- C17: in every state reached from a fresh handler, in either mode, by any
sequence of events, the number of samples plus the number of registry entries
is at most `orderCount`; so the response rate of the report is at most 100
(and not negative), and there is no sample when no order has been placed. -/
theorem samples_and_pending_le_orders (stod : String → Option Float) (marketDataOnly : Bool)
    (t0 : Int) (es : List Event) :
    conserved (run stod (MyEventHandler.fresh marketDataOnly t0) es) ∧
    responseRate (run stod (MyEventHandler.fresh marketDataOnly t0) es) ≤ 100 ∧
    0 ≤ responseRate (run stod (MyEventHandler.fresh marketDataOnly t0) es) ∧
    ((run stod (MyEventHandler.fresh marketDataOnly t0) es).orderCount = 0 →
      (run stod (MyEventHandler.fresh marketDataOnly t0) es).latencies = []) := by
  have hb0 : orderCountBounded (MyEventHandler.fresh marketDataOnly t0) :=
    ⟨le_refl _, by simp [MyEventHandler.fresh]⟩
  have hc0 : conserved (MyEventHandler.fresh marketDataOnly t0) := by
    simp [conserved, MyEventHandler.fresh]
  have hc := run_conserved stod _ es hb0 hc0
  refine ⟨hc, ?_, ?_, ?_⟩
  · unfold responseRate
    unfold conserved at hc
    split
    · rename_i hpos
      have hpos2 : (0 : Rat) < ((run stod (MyEventHandler.fresh marketDataOnly t0) es).orderCount : Rat) := by
        exact_mod_cast hpos
      rw [div_le_iff₀ hpos2]
      have hle : ((run stod (MyEventHandler.fresh marketDataOnly t0) es).latencies.length : Int) ≤
          (run stod (MyEventHandler.fresh marketDataOnly t0) es).orderCount := by omega
      have hle2 : (((run stod (MyEventHandler.fresh marketDataOnly t0) es).latencies.length : Int) : Rat) ≤
          ((run stod (MyEventHandler.fresh marketDataOnly t0) es).orderCount : Rat) := by
        exact_mod_cast hle
      push_cast at hle2
      linarith
    · norm_num
  · unfold responseRate
    split
    · rename_i hpos
      have hpos2 : (0 : Rat) < ((run stod (MyEventHandler.fresh marketDataOnly t0) es).orderCount : Rat) := by
        exact_mod_cast hpos
      positivity
    · exact le_refl _
  · intro hz
    unfold conserved at hc
    rw [hz] at hc
    have : (run stod (MyEventHandler.fresh marketDataOnly t0) es).latencies.length = 0 := by omega
    exact List.length_eq_zero.mp this

/-! ## Rounding to binary64 -/

theorem droppedBits_spec : ∀ (fuel x : Nat), x ≤ fuel →
    x / 2 ^ droppedBits fuel x < 2 ^ 53 ∧
    (0 < droppedBits fuel x → 2 ^ 52 ≤ x / 2 ^ droppedBits fuel x) := by
  intro fuel
  induction fuel with
  | zero =>
    intro x hx
    have : x = 0 := by omega
    subst this
    simp [droppedBits]
  | succ fuel ih =>
    intro x hx
    unfold droppedBits
    by_cases hlt : x < 2 ^ 53
    · rw [if_pos hlt]
      simp only [pow_zero, Nat.div_one, lt_self_iff_false, false_implies, and_true]
      exact hlt
    · rw [if_neg hlt]
      have hx2 : x / 2 ≤ fuel := by
        have : 0 < x := by
          rcases Nat.eq_zero_or_pos x with h0 | h0
          · subst h0; exact absurd (by norm_num : (0:Nat) < 2 ^ 53) hlt
          · exact h0
        omega
      obtain ⟨h1, h2⟩ := ih (x / 2) hx2
      have hdiv : x / 2 ^ (droppedBits fuel (x / 2) + 1) = x / 2 / 2 ^ droppedBits fuel (x / 2) := by
        rw [pow_succ, Nat.mul_comm, Nat.div_div_eq_div_mul]
      rw [hdiv]
      refine ⟨h1, fun _ => ?_⟩
      rcases Nat.eq_zero_or_pos (droppedBits fuel (x / 2)) with hz | hp
      · rw [hz, pow_zero, Nat.div_one]
        have : (2:Nat) ^ 53 = 2 * 2 ^ 52 := by norm_num
        omega
      · exact h2 hp

theorem droppedBits_of_lt (x : Nat) (hx : x < 2 ^ 53) : droppedBits x x = 0 := by
  cases x with
  | zero => rfl
  | succ n =>
    unfold droppedBits
    rw [if_pos hx]

/-- The decomposition of `x` that `roundToDouble` works with. -/
theorem roundToDouble_decompose (x : Nat) :
    x = x / 2 ^ droppedBits x x * 2 ^ droppedBits x x + x % 2 ^ droppedBits x x ∧
    x % 2 ^ droppedBits x x < 2 ^ droppedBits x x ∧
    x / 2 ^ droppedBits x x < 2 ^ 53 ∧
    (0 < droppedBits x x → 2 ^ 52 ≤ x / 2 ^ droppedBits x x) := by
  obtain ⟨h1, h2⟩ := droppedBits_spec x x (le_refl x)
  refine ⟨?_, Nat.mod_lt _ (by positivity), h1, h2⟩
  rw [Nat.mul_comm]
  exact (Nat.div_add_mod x _).symm

theorem roundToDouble_of_lt (x : Nat) (hx : x < 2 ^ 53) : roundToDouble x = x := by
  unfold roundToDouble
  simp [droppedBits_of_lt x hx, Nat.mod_one]

theorem roundToDouble_le (x : Nat) : 2 ^ 53 * roundToDouble x ≤ (2 ^ 53 + 1) * x := by
  obtain ⟨hx, hr, hq, hq2⟩ := roundToDouble_decompose x
  unfold roundToDouble
  dsimp only
  generalize hs : droppedBits x x = s at *
  generalize hQ : x / 2 ^ s = q at *
  generalize hR : x % 2 ^ s = r at *
  generalize hT : 2 ^ s = T at *
  split
  · rename_i hup
    have hspos : 0 < s := by
      rcases Nat.eq_zero_or_pos s with h0 | h0
      · subst h0
        simp at hT
        subst hT
        omega
      · exact h0
    have hq52 := hq2 hspos
    have hX : 2 ^ 52 * T ≤ q * T := Nat.mul_le_mul_right T hq52
    have hT2 : T ≤ 2 * r := by omega
    rw [Nat.add_mul, Nat.one_mul]
    generalize q * T = X at *
    norm_num at *
    omega
  · generalize q * T = X at *
    norm_num at *
    omega

theorem droppedBits_mono (x y : Nat) (hxy : x ≤ y) : droppedBits x x ≤ droppedBits y y := by
  by_contra hlt
  rw [not_le] at hlt
  obtain ⟨_, _, _, hx2⟩ := roundToDouble_decompose x
  obtain ⟨_, _, hy1, _⟩ := roundToDouble_decompose y
  have hpos : 0 < droppedBits x x := by omega
  have h52 := hx2 hpos
  -- x is at least 2 ^ (52 + sx), y is below 2 ^ (53 + sy)
  have hxlow : 2 ^ 52 * 2 ^ droppedBits x x ≤ x :=
    (Nat.le_div_iff_mul_le (by positivity)).mp h52
  have hyhigh : y < 2 ^ 53 * 2 ^ droppedBits y y :=
    (Nat.div_lt_iff_lt_mul (by positivity)).mp hy1
  have hpow : 2 ^ 53 * 2 ^ droppedBits y y ≤ 2 ^ 52 * 2 ^ droppedBits x x := by
    rw [← pow_add, ← pow_add]
    exact Nat.pow_le_pow_right (by norm_num) (by omega)
  omega

theorem roundToDouble_bounds (x : Nat) :
    x / 2 ^ droppedBits x x * 2 ^ droppedBits x x ≤ roundToDouble x ∧
    roundToDouble x ≤ (x / 2 ^ droppedBits x x + 1) * 2 ^ droppedBits x x := by
  unfold roundToDouble
  dsimp only
  split
  · exact ⟨Nat.mul_le_mul_right _ (Nat.le_succ _), le_refl _⟩
  · exact ⟨le_refl _, Nat.mul_le_mul_right _ (Nat.le_succ _)⟩

theorem roundToDouble_mono (x y : Nat) (hxy : x ≤ y) : roundToDouble x ≤ roundToDouble y := by
  have hs := droppedBits_mono x y hxy
  obtain ⟨hx, hrx, hqx, hqx2⟩ := roundToDouble_decompose x
  obtain ⟨hy, hry, hqy, hqy2⟩ := roundToDouble_decompose y
  rcases Nat.lt_or_eq_of_le hs with hslt | hseq
  · -- different binades: everything that x rounds to lies below the binade of y
    have hbx := (roundToDouble_bounds x).2
    have hby := (roundToDouble_bounds y).1
    have h52 := hqy2 (by omega)
    have h1 : (x / 2 ^ droppedBits x x + 1) * 2 ^ droppedBits x x ≤
        2 ^ 53 * 2 ^ droppedBits x x := Nat.mul_le_mul_right _ hqx
    have h2 : 2 ^ 53 * 2 ^ droppedBits x x ≤ 2 ^ 52 * 2 ^ droppedBits y y := by
      rw [← pow_add, ← pow_add]
      exact Nat.pow_le_pow_right (by norm_num) (by omega)
    have h3 : 2 ^ 52 * 2 ^ droppedBits y y ≤ y / 2 ^ droppedBits y y * 2 ^ droppedBits y y :=
      Nat.mul_le_mul_right _ h52
    omega
  · -- same binade
    have hqle : x / 2 ^ droppedBits x x ≤ y / 2 ^ droppedBits x x :=
      Nat.div_le_div_right hxy
    rw [← hseq] at hy hry hqy hqy2
    rcases Nat.lt_or_eq_of_le hqle with hqlt | hqeq
    · have hbx := (roundToDouble_bounds x).2
      have hby := (roundToDouble_bounds y).1
      rw [← hseq] at hby
      have h1 : (x / 2 ^ droppedBits x x + 1) * 2 ^ droppedBits x x ≤
          y / 2 ^ droppedBits x x * 2 ^ droppedBits x x := Nat.mul_le_mul_right _ hqlt
      omega
    · unfold roundToDouble
      dsimp only
      rw [← hseq, ← hqeq]
      rw [← hqeq] at hy
      have hrle : x % 2 ^ droppedBits x x ≤ y % 2 ^ droppedBits x x := by omega
      by_cases hupx : 2 ^ droppedBits x x < 2 * (x % 2 ^ droppedBits x x) ∨
          (2 * (x % 2 ^ droppedBits x x) = 2 ^ droppedBits x x ∧
            x / 2 ^ droppedBits x x % 2 = 1)
      · have hupy : 2 ^ droppedBits x x < 2 * (y % 2 ^ droppedBits x x) ∨
            (2 * (y % 2 ^ droppedBits x x) = 2 ^ droppedBits x x ∧
              x / 2 ^ droppedBits x x % 2 = 1) := by
          rcases hupx with h | ⟨h, hodd⟩
          · left; omega
          · rcases Nat.lt_or_eq_of_le hrle with hl | he
            · left; omega
            · right; exact ⟨by omega, hodd⟩
        rw [if_pos hupx, if_pos hupy]
      · rw [if_neg hupx]
        split
        · exact Nat.mul_le_mul_right _ (Nat.le_succ _)
        · exact le_refl _

/-- The significands of the three literals of the report: `0.5` is exact, and
those of `0.95` and `0.99` lie within half a unit in the last place below the
decimal values. -/
theorem doubleSignificand_of_report :
    doubleSignificand 50 100 = 2 ^ 52 ∧
    doubleSignificand 95 100 = 8556839292003942 ∧
    doubleSignificand 99 100 = 8917127262193582 ∧
    100 * doubleSignificand 95 100 ≤ 95 * 2 ^ 53 ∧
    2 * (95 * 2 ^ 53 - 100 * doubleSignificand 95 100) ≤ 100 ∧
    100 * doubleSignificand 99 100 ≤ 99 * 2 ^ 53 ∧
    2 * (99 * 2 ^ 53 - 100 * doubleSignificand 99 100) ≤ 100 := by
  decide

/-- The value `roundToDouble x` has at most 53 significant bits and no value
with the same unit is nearer to `x`: it is a multiple `a * 2 ^ s` of the unit
with `a ≤ 2 ^ 53`, at most half a unit away from `x`. -/
theorem roundToDouble_nearest (x : Nat) :
    ∃ a, a ≤ 2 ^ 53 ∧ roundToDouble x = a * 2 ^ droppedBits x x ∧
      2 * x ≤ 2 * roundToDouble x + 2 ^ droppedBits x x ∧
      2 * roundToDouble x ≤ 2 * x + 2 ^ droppedBits x x := by
  obtain ⟨hx, hr, hq, _⟩ := roundToDouble_decompose x
  unfold roundToDouble
  dsimp only
  split
  · refine ⟨x / 2 ^ droppedBits x x + 1, by omega, rfl, ?_, ?_⟩
    · rw [Nat.add_mul, Nat.one_mul]; omega
    · rw [Nat.add_mul, Nat.one_mul]; omega
  · refine ⟨x / 2 ^ droppedBits x x, by omega, rfl, ?_, ?_⟩
    · omega
    · omega

theorem percentileIndex_mono (n c d : Nat) (hcd : c ≤ d) :
    percentileIndex n c ≤ percentileIndex n d := by
  unfold percentileIndex
  exact Nat.div_le_div_right (roundToDouble_mono _ _ (Nat.mul_le_mul_left _ hcd))

theorem percentileIndex_lt (n c : Nat) (hn : 0 < n) (hc : c ≤ doubleSignificand 99 100) :
    percentileIndex n c < n := by
  have h99 : doubleSignificand 99 100 = 8917127262193582 := by decide
  have hm := percentileIndex_mono n c _ hc
  refine lt_of_le_of_lt hm ?_
  unfold percentileIndex
  rw [h99]
  have h1 := roundToDouble_le n
  have h2 := roundToDouble_le (roundToDouble n * 8917127262193582)
  rw [Nat.div_lt_iff_lt_mul (by positivity)]
  generalize roundToDouble (roundToDouble n * 8917127262193582) = b at *
  generalize roundToDouble n = a at *
  norm_num at *
  omega

theorem droppedBits_le_of_lt (x : Nat) (hx : x < 2 ^ 106) : droppedBits x x ≤ 53 := by
  obtain ⟨_, _, _, h2⟩ := roundToDouble_decompose x
  by_contra hgt
  rw [not_le] at hgt
  have h52 := h2 (by omega)
  have hxlow : 2 ^ 52 * 2 ^ droppedBits x x ≤ x :=
    (Nat.le_div_iff_mul_le (by positivity)).mp h52
  have hpow : 2 ^ 106 ≤ 2 ^ 52 * 2 ^ droppedBits x x := by
    rw [← pow_add]
    exact Nat.pow_le_pow_right (by norm_num) (by omega)
  omega

/-- Truncation after rounding: when `x` lies, by more than half a unit in the
last place, above `k * 2 ^ 53` less one unit and below `(k + 1) * 2 ^ 53`, the
rounded value truncates to `k`. -/
theorem roundToDouble_div (x k : Nat) (hs : droppedBits x x ≤ 53)
    (h1 : 2 * (k * 2 ^ 53) < 2 * x + 2 ^ droppedBits x x)
    (h2 : 2 * x + 2 ^ droppedBits x x < 2 * ((k + 1) * 2 ^ 53)) :
    roundToDouble x / 2 ^ 53 = k := by
  obtain ⟨hx, hr, _, _⟩ := roundToDouble_decompose x
  have hU : (2 : Nat) ^ 53 = 2 ^ (53 - droppedBits x x) * 2 ^ droppedBits x x := by
    rw [← pow_add]
    congr 1
    omega
  -- the rounded value is a multiple of the unit, within half a unit of x
  have hmult : ∃ a, roundToDouble x = a * 2 ^ droppedBits x x ∧
      2 * x ≤ 2 * (a * 2 ^ droppedBits x x) + 2 ^ droppedBits x x ∧
      2 * (a * 2 ^ droppedBits x x) ≤ 2 * x + 2 ^ droppedBits x x := by
    unfold roundToDouble
    dsimp only
    split
    · rename_i hup
      refine ⟨x / 2 ^ droppedBits x x + 1, rfl, ?_, ?_⟩
      · rw [Nat.add_mul, Nat.one_mul]; omega
      · rw [Nat.add_mul, Nat.one_mul]; omega
    · rename_i hup
      refine ⟨x / 2 ^ droppedBits x x, rfl, ?_, ?_⟩
      · omega
      · omega
  obtain ⟨a, ha, hlo, hhi⟩ := hmult
  rw [ha]
  have hT : 0 < 2 ^ droppedBits x x := by positivity
  apply Nat.div_eq_of_lt_le
  · -- k * 2 ^ 53 ≤ a * T
    rw [hU, ← Nat.mul_assoc]
    apply Nat.mul_le_mul_right
    have hlt : k * 2 ^ (53 - droppedBits x x) * 2 ^ droppedBits x x <
        (a + 1) * 2 ^ droppedBits x x := by
      rw [Nat.mul_assoc, ← hU, Nat.add_mul, Nat.one_mul]
      omega
    have := Nat.lt_of_mul_lt_mul_right hlt
    omega
  · show a * 2 ^ droppedBits x x < (k + 1) * 2 ^ 53
    omega

theorem roundToDouble_unit_bounds (x : Nat) :
    (2 ^ droppedBits x x = 1 ∨ 2 ^ 52 * 2 ^ droppedBits x x ≤ x) ∧
    x < 2 ^ 53 * 2 ^ droppedBits x x := by
  obtain ⟨hx, hr, hq, hq2⟩ := roundToDouble_decompose x
  refine ⟨?_, (Nat.div_lt_iff_lt_mul (by positivity)).mp hq⟩
  rcases Nat.eq_zero_or_pos (droppedBits x x) with h | h
  · left
    rw [h, pow_zero]
  · right
    exact (Nat.le_div_iff_mul_le (by positivity)).mp (hq2 h)

theorem percentileIndex_exact (n : Nat) (hn : n < 2 ^ 46) :
    percentileIndex n (doubleSignificand 50 100) = n * 50 / 100 ∧
    percentileIndex n (doubleSignificand 95 100) = n * 95 / 100 ∧
    percentileIndex n (doubleSignificand 99 100) = n * 99 / 100 := by
  have h50 : doubleSignificand 50 100 = 4503599627370496 := by decide
  have h95 : doubleSignificand 95 100 = 8556839292003942 := by decide
  have h99 : doubleSignificand 99 100 = 8917127262193582 := by decide
  have hnn : roundToDouble n = n :=
    roundToDouble_of_lt n (lt_trans hn (by norm_num))
  unfold percentileIndex
  rw [h50, h95, h99, hnn]
  norm_num at hn
  refine ⟨?_, ?_, ?_⟩
  · obtain ⟨hA, hB⟩ := roundToDouble_unit_bounds (n * 4503599627370496)
    have hs := droppedBits_le_of_lt (n * 4503599627370496) (by norm_num; omega)
    apply roundToDouble_div _ _ hs <;>
    · generalize 2 ^ droppedBits (n * 4503599627370496) (n * 4503599627370496) = T at *
      norm_num at *
      omega
  · obtain ⟨hA, hB⟩ := roundToDouble_unit_bounds (n * 8556839292003942)
    have hs := droppedBits_le_of_lt (n * 8556839292003942) (by norm_num; omega)
    apply roundToDouble_div _ _ hs <;>
    · generalize 2 ^ droppedBits (n * 8556839292003942) (n * 8556839292003942) = T at *
      norm_num at *
      omega
  · obtain ⟨hA, hB⟩ := roundToDouble_unit_bounds (n * 8917127262193582)
    have hs := droppedBits_le_of_lt (n * 8917127262193582) (by norm_num; omega)
    apply roundToDouble_div _ _ hs <;>
    · generalize 2 ^ droppedBits (n * 8917127262193582) (n * 8917127262193582) = T at *
      norm_num at *
      omega

/-! ## The final report -/

theorem length_sorted (latencies : List Int) :
    (latencies.insertionSort (fun a b => a ≤ b)).length = latencies.length :=
  List.length_insertionSort _ latencies

theorem mem_sorted (latencies : List Int) (v : Int) :
    v ∈ latencies.insertionSort (fun a b => a ≤ b) ↔ v ∈ latencies :=
  (List.perm_insertionSort _ latencies).mem_iff

theorem sorted_get_le (latencies : List Int) (i j : Nat) (hij : i ≤ j)
    (hj : j < (latencies.insertionSort (fun a b => a ≤ b)).length) :
    (latencies.insertionSort (fun a b => a ≤ b)).get ⟨i, lt_of_le_of_lt hij hj⟩ ≤
      (latencies.insertionSort (fun a b => a ≤ b)).get ⟨j, hj⟩ := by
  have hs : List.Sorted (fun a b : Int => a ≤ b)
      (latencies.insertionSort (fun a b => a ≤ b)) :=
    List.sorted_insertionSort _ latencies
  exact List.Sorted.rel_get_of_le hs (Fin.mk_le_mk.mpr hij)

theorem reportPercentiles_of_two (latencies : List Int) (hn : 2 ≤ latencies.length) :
    reportPercentiles latencies =
      some
        { p50 := (latencies.insertionSort (fun a b => a ≤ b))[percentileIndex latencies.length
            (doubleSignificand 50 100)]?
          p95 := (latencies.insertionSort (fun a b => a ≤ b))[percentileIndex latencies.length
            (doubleSignificand 95 100)]?
          p99 := (latencies.insertionSort (fun a b => a ≤ b))[percentileIndex latencies.length
            (doubleSignificand 99 100)]? } := by
  unfold reportPercentiles
  dsimp only
  rw [length_sorted, if_pos hn]

theorem percentileIndex_lt_of_report (n : Nat) (hn : 0 < n) :
    percentileIndex n (doubleSignificand 50 100) < n ∧
    percentileIndex n (doubleSignificand 95 100) < n ∧
    percentileIndex n (doubleSignificand 99 100) < n :=
  ⟨percentileIndex_lt n _ hn (by decide), percentileIndex_lt n _ hn (by decide),
    percentileIndex_lt n _ hn (le_refl _)⟩

/-- C11: for every sample sequence with at least two samples, each of the
three indexes computed by the report is a valid index of the sorted samples,
so clamping it to `count - 1` changes nothing and each lookup yields an
element; the percentiles reported are the elements of the ascending-sorted
sequence at those indexes.  For fewer than `2 ^ 46` samples the indexes are
the floors of `count * 50 / 100`, `count * 95 / 100` and `count * 99 / 100`. -/
theorem percentile_index_valid (latencies : List Int) (hn : 2 ≤ latencies.length) :
    percentileIndex latencies.length (doubleSignificand 50 100) < latencies.length ∧
    percentileIndex latencies.length (doubleSignificand 95 100) < latencies.length ∧
    percentileIndex latencies.length (doubleSignificand 99 100) < latencies.length ∧
    reportPercentiles latencies =
      some
        { p50 := (latencies.insertionSort (fun a b => a ≤ b))[min
            (percentileIndex latencies.length (doubleSignificand 50 100))
            (latencies.length - 1)]?
          p95 := (latencies.insertionSort (fun a b => a ≤ b))[min
            (percentileIndex latencies.length (doubleSignificand 95 100))
            (latencies.length - 1)]?
          p99 := (latencies.insertionSort (fun a b => a ≤ b))[min
            (percentileIndex latencies.length (doubleSignificand 99 100))
            (latencies.length - 1)]? } ∧
    (∃ v50 v95 v99, reportPercentiles latencies =
      some { p50 := some v50, p95 := some v95, p99 := some v99 }) ∧
    List.Sorted (fun a b : Int => a ≤ b) (latencies.insertionSort (fun a b => a ≤ b)) ∧
    (latencies.insertionSort (fun a b => a ≤ b)).Perm latencies ∧
    (latencies.length < 2 ^ 46 →
      percentileIndex latencies.length (doubleSignificand 50 100) = latencies.length * 50 / 100 ∧
      percentileIndex latencies.length (doubleSignificand 95 100) = latencies.length * 95 / 100 ∧
      percentileIndex latencies.length (doubleSignificand 99 100) =
        latencies.length * 99 / 100) := by
  obtain ⟨h50, h95, h99⟩ := percentileIndex_lt_of_report latencies.length (by omega)
  have hrep := reportPercentiles_of_two latencies hn
  refine ⟨h50, h95, h99, ?_, ?_, List.sorted_insertionSort _ latencies,
    List.perm_insertionSort _ latencies, percentileIndex_exact latencies.length⟩
  · rw [hrep, Nat.min_eq_left (by omega), Nat.min_eq_left (by omega),
      Nat.min_eq_left (by omega)]
  · rw [hrep]
    have l50 : percentileIndex latencies.length (doubleSignificand 50 100) <
        (latencies.insertionSort (fun a b => a ≤ b)).length := by
      rw [length_sorted]; exact h50
    have l95 : percentileIndex latencies.length (doubleSignificand 95 100) <
        (latencies.insertionSort (fun a b => a ≤ b)).length := by
      rw [length_sorted]; exact h95
    have l99 : percentileIndex latencies.length (doubleSignificand 99 100) <
        (latencies.insertionSort (fun a b => a ≤ b)).length := by
      rw [length_sorted]; exact h99
    exact ⟨_, _, _, by rw [List.getElem?_eq_getElem l50, List.getElem?_eq_getElem l95,
      List.getElem?_eq_getElem l99]⟩

/-- Witness for C11: twenty samples, given in descending order; the report
reads the sorted samples at the indexes 10, 19 and 19. -/
theorem percentile_index_valid_witness :
    reportPercentiles
      [20, 19, 18, 17, 16, 15, 14, 13, 12, 11, 10, 9, 8, 7, 6, 5, 4, 3, 2, 1] =
      some { p50 := some 11, p95 := some 20, p99 := some 20 } ∧
    percentileIndex 20 (doubleSignificand 95 100) = 19 :=
  have w := percentile_index_valid
    [20, 19, 18, 17, 16, 15, 14, 13, 12, 11, 10, 9, 8, 7, 6, 5, 4, 3, 2, 1] (by decide)
  ⟨w.2.2.2.1.trans (by decide), (w.2.2.2.2.2.2.2 (by decide)).2.1⟩

theorem foldl_min_le (xs : List Int) :
    ∀ m : Int, xs.foldl (fun m y => if y < m then y else m) m ≤ m ∧
      (∀ y ∈ xs, xs.foldl (fun m y => if y < m then y else m) m ≤ y) ∧
      (xs.foldl (fun m y => if y < m then y else m) m = m ∨
        xs.foldl (fun m y => if y < m then y else m) m ∈ xs) := by
  induction xs with
  | nil =>
    intro m
    exact ⟨le_refl _, fun y hy => by simp at hy, Or.inl rfl⟩
  | cons x xs ih =>
    intro m
    rw [List.foldl_cons]
    obtain ⟨h1, h2, h3⟩ := ih (if x < m then x else m)
    have hstep : (if x < m then x else m) ≤ m ∧ (if x < m then x else m) ≤ x := by
      split <;> constructor <;> omega
    refine ⟨le_trans h1 hstep.1, ?_, ?_⟩
    · intro y hy
      rcases List.mem_cons.mp hy with hy | hy
      · rw [hy]; exact le_trans h1 hstep.2
      · exact h2 y hy
    · rcases h3 with h3 | h3
      · rw [h3]
        by_cases hx : x < m
        · rw [if_pos hx]; right; exact List.mem_cons_self x xs
        · rw [if_neg hx]; left; rfl
      · right; exact List.mem_cons_of_mem x h3

theorem foldl_max_ge (xs : List Int) :
    ∀ m : Int, m ≤ xs.foldl (fun m y => if y < m then m else y) m ∧
      (∀ y ∈ xs, y ≤ xs.foldl (fun m y => if y < m then m else y) m) ∧
      (xs.foldl (fun m y => if y < m then m else y) m = m ∨
        xs.foldl (fun m y => if y < m then m else y) m ∈ xs) := by
  induction xs with
  | nil =>
    intro m
    exact ⟨le_refl _, fun y hy => by simp at hy, Or.inl rfl⟩
  | cons x xs ih =>
    intro m
    rw [List.foldl_cons]
    obtain ⟨h1, h2, h3⟩ := ih (if x < m then m else x)
    have hstep : m ≤ (if x < m then m else x) ∧ x ≤ (if x < m then m else x) := by
      split <;> constructor <;> omega
    refine ⟨le_trans hstep.1 h1, ?_, ?_⟩
    · intro y hy
      rcases List.mem_cons.mp hy with hy | hy
      · rw [hy]; exact le_trans hstep.2 h1
      · exact h2 y hy
    · rcases h3 with h3 | h3
      · rw [h3]
        by_cases hx : x < m
        · rw [if_pos hx]; left; rfl
        · rw [if_neg hx]; right; exact List.mem_cons_self x xs
      · right; exact List.mem_cons_of_mem x h3

/-- The value `minElement x xs` is the least element of `x :: xs`. -/
theorem minElement_spec (x : Int) (xs : List Int) :
    minElement x xs ∈ x :: xs ∧ ∀ y ∈ x :: xs, minElement x xs ≤ y := by
  obtain ⟨h1, h2, h3⟩ := foldl_min_le xs x
  unfold minElement
  refine ⟨?_, ?_⟩
  · rcases h3 with h3 | h3
    · rw [h3]; exact List.mem_cons_self x xs
    · exact List.mem_cons_of_mem x h3
  · intro y hy
    rcases List.mem_cons.mp hy with hy | hy
    · rw [hy]; exact h1
    · exact h2 y hy

/-- The value `maxElement x xs` is the greatest element of `x :: xs`. -/
theorem maxElement_spec (x : Int) (xs : List Int) :
    maxElement x xs ∈ x :: xs ∧ ∀ y ∈ x :: xs, y ≤ maxElement x xs := by
  obtain ⟨h1, h2, h3⟩ := foldl_max_ge xs x
  unfold maxElement
  refine ⟨?_, ?_⟩
  · rcases h3 with h3 | h3
    · rw [h3]; exact List.mem_cons_self x xs
    · exact List.mem_cons_of_mem x h3
  · intro y hy
    rcases List.mem_cons.mp hy with hy | hy
    · rw [hy]; exact h1
    · exact h2 y hy

/-- C12, as amended: when the handler is not in market-data-only mode and has
at least two samples, the final report produces the three percentiles, with
`p50 ≤ p95 ≤ p99`, and all three lie between the reported minimum and
maximum. -/
theorem percentiles_ordered (h : MyEventHandler) (hmode : h.marketDataOnly = false)
    (hn : 2 ≤ h.latencies.length) :
    ∃ stats p50 p95 p99,
      finalLatencyReport h = some stats ∧
      stats.percentiles = some { p50 := some p50, p95 := some p95, p99 := some p99 } ∧
      stats.minimum ≤ p50 ∧ p50 ≤ p95 ∧ p95 ≤ p99 ∧ p99 ≤ stats.maximum := by
  cases hl : h.latencies with
  | nil =>
    rw [hl] at hn
    simp at hn
  | cons x xs =>
    have hlen : 0 < (x :: xs).length := by simp
    obtain ⟨h50, h95, h99⟩ := percentileIndex_lt_of_report (x :: xs).length hlen
    have hle1 := percentileIndex_mono (x :: xs).length (doubleSignificand 50 100)
      (doubleSignificand 95 100) (by decide)
    have hle2 := percentileIndex_mono (x :: xs).length (doubleSignificand 95 100)
      (doubleSignificand 99 100) (by decide)
    have l99 : percentileIndex (x :: xs).length (doubleSignificand 99 100) <
        ((x :: xs).insertionSort (fun a b => a ≤ b)).length := by
      rw [length_sorted]; exact h99
    have l95 := lt_of_le_of_lt hle2 l99
    have l50 := lt_of_le_of_lt hle1 l95
    refine ⟨{ averageLatency := h.getAverageLatency
              minimum := minElement x xs
              maximum := maxElement x xs
              percentiles := reportPercentiles (x :: xs) },
      ((x :: xs).insertionSort (fun a b => a ≤ b)).get ⟨_, l50⟩,
      ((x :: xs).insertionSort (fun a b => a ≤ b)).get ⟨_, l95⟩,
      ((x :: xs).insertionSort (fun a b => a ≤ b)).get ⟨_, l99⟩, ?_, ?_, ?_, ?_, ?_, ?_⟩
    · unfold finalLatencyReport MyEventHandler.isMarketDataOnly MyEventHandler.getLatencies
      rw [hmode, hl]
      rfl
    · show reportPercentiles (x :: xs) = _
      rw [reportPercentiles_of_two (x :: xs) (by rw [← hl]; exact hn),
        List.getElem?_eq_getElem l50, List.getElem?_eq_getElem l95,
        List.getElem?_eq_getElem l99]
      rfl
    · exact (minElement_spec x xs).2 _
        ((mem_sorted (x :: xs) _).mp (List.get_mem _ _ _))
    · exact sorted_get_le (x :: xs) _ _ hle1 l95
    · exact sorted_get_le (x :: xs) _ _ hle2 l99
    · exact (maxElement_spec x xs).2 _
        ((mem_sorted (x :: xs) _).mp (List.get_mem _ _ _))

/-- Witness for C12: a handler in trading mode with the samples 800, 500 and
650. -/
theorem percentiles_ordered_witness :
    ∃ stats p50 p95 p99,
      finalLatencyReport { MyEventHandler.fresh false 0 with latencies := [800, 500, 650] } =
        some stats ∧
      stats.percentiles = some { p50 := some p50, p95 := some p95, p99 := some p99 } ∧
      stats.minimum ≤ p50 ∧ p50 ≤ p95 ∧ p95 ≤ p99 ∧ p99 ≤ stats.maximum :=
  percentiles_ordered { MyEventHandler.fresh false 0 with latencies := [800, 500, 650] }
    rfl (by decide)

/-- Counterexample to C12 as stated: after a run in trading mode that records
one sample, the sample sequence is not empty and the report gives no
percentiles; and after a run that records two samples and ends in
market-data-only mode, the report gives no latency statistics at all. -/
theorem percentiles_ordered_counterexample :
    (run sampleStod (MyEventHandler.fresh false 0) sampleRunOneSample).latencies = [800] ∧
    (run sampleStod (MyEventHandler.fresh false 0) sampleRunOneSample).marketDataOnly = false ∧
    (finalLatencyReport (run sampleStod (MyEventHandler.fresh false 0) sampleRunOneSample)).isSome
      = true ∧
    (finalLatencyReport (run sampleStod (MyEventHandler.fresh false 0) sampleRunOneSample)).bind
      (fun stats => stats.percentiles) = none ∧
    (run sampleStod (MyEventHandler.fresh false 0) sampleRunDowngraded).latencies = [800, 500] ∧
    (finalLatencyReport (run sampleStod (MyEventHandler.fresh false 0) sampleRunDowngraded)).isSome
      = false := by
  decide

end ccapi
